import Mathlib

/-!
Verification of the CardCounter Blackjack round engine.

The definitions below are a shallow embedding of the JavaScript sources:
Card.js, Hand.js, Deck.js, Dealer.js, Evaluator.js and GameState.js.
Randomness (Math.random inside the Fisher-Yates shuffle) is modelled as an
injectable stream of natural numbers consumed one position at a time; the
value drawn for loop index i is taken modulo (i + 1), matching
floor(random() * (i + 1)) which ranges over 0..i.
The JavaScript throw statements are modelled by an error result; the
unbounded while loop of playDealerHand is modelled with explicit fuel,
where running out of fuel while the dealer still wants to hit is reported
by a distinguished result.
-/

set_option maxRecDepth 100000

namespace CardCounter

/-! ### Card.js -/

inductive Rank
  | ace | r2 | r3 | r4 | r5 | r6 | r7 | r8 | r9 | r10 | jack | queen | king
  deriving DecidableEq, Repr

inductive Suit
  | hearts | diamonds | clubs | spades
  deriving DecidableEq, Repr

/-- Base Blackjack value of a rank: Ace is 11, face cards are 10. -/
def Rank.value : Rank → Nat
  | .ace => 11
  | .r2 => 2
  | .r3 => 3
  | .r4 => 4
  | .r5 => 5
  | .r6 => 6
  | .r7 => 7
  | .r8 => 8
  | .r9 => 9
  | .r10 => 10
  | .jack => 10
  | .queen => 10
  | .king => 10

structure Card where
  rank : Rank
  suit : Suit
  deriving DecidableEq, Repr

def Card.value (c : Card) : Nat := c.rank.value

/-- True if the card is an Ace (Card.js isAce). -/
def isAce (c : Card) : Bool := c.rank == Rank.ace

/-- RANKS constant of Card.js, in declaration order. -/
def RANKS : List Rank :=
  [.ace, .r2, .r3, .r4, .r5, .r6, .r7, .r8, .r9, .r10, .jack, .queen, .king]

/-- SUITS constant of Card.js, in declaration order. -/
def SUITS : List Suit := [.hearts, .diamonds, .clubs, .spades]

/-! ### Hand.js: ace-aware value evaluation -/

structure HandVal where
  total : Nat
  soft : Bool
  deriving DecidableEq, Repr

/-- The reduction loop of Hand.js evaluate: while total exceeds 21 and an
un-reduced Ace remains, subtract 10 and consume one Ace.  Returns the final
total together with the number of Aces still counted as 11. -/
def reduceAces : Nat → Nat → Nat × Nat
  | t, 0 => (t, 0)
  | t, a + 1 => if 21 < t then reduceAces (t - 10) a else (t, a + 1)

/-- Hand.js evaluate: sum base values, reduce Aces, report softness. -/
def evaluate (cards : List Card) : HandVal :=
  let t := (cards.map Card.value).sum
  let a := (cards.filter isAce).length
  let r := reduceAces t a
  ⟨r.1, decide (0 < r.2)⟩

/-! ### Hand.js: the Hand model -/

structure Hand where
  cards : List Card
  bet : ℚ
  isDealerHand : Bool
  settledFlag : Bool
  deriving DecidableEq, Repr

/-- Hand.js createHand. -/
def createHand (isDealer : Bool) (bet : ℚ) : Hand := ⟨[], bet, isDealer, false⟩

def Hand.addCards (h : Hand) (cs : List Card) : Hand :=
  { h with cards := h.cards ++ cs }

def Hand.total (h : Hand) : Nat := (evaluate h.cards).total

def Hand.isSoft (h : Hand) : Bool := (evaluate h.cards).soft

def Hand.isBusted (h : Hand) : Bool := decide (21 < h.total)

/-- Natural Blackjack: exactly 2 cards totalling 21. -/
def Hand.isBlackjack (h : Hand) : Bool :=
  h.cards.length == 2 && h.total == 21

/-- Splittable: exactly 2 cards with the same rank. -/
def Hand.canSplit (h : Hand) : Bool :=
  match h.cards with
  | [c0, c1] => c0.rank == c1.rank
  | _ => false

def Hand.canDoubleDown (h : Hand) : Bool := h.cards.length == 2

/-- Hand.js split: two fresh hands, each inheriting the bet and one of the
two original cards.  The JavaScript throws when canSplit fails; that is
modelled by none. -/
def Hand.split (h : Hand) : Option (Hand × Hand) :=
  if h.canSplit then
    match h.cards with
    | [c0, c1] => some (⟨[c0], h.bet, false, false⟩, ⟨[c1], h.bet, false, false⟩)
    | _ => none
  else none

def Hand.settle (h : Hand) : Hand := { h with settledFlag := true }

def Hand.isSettled (h : Hand) : Bool :=
  h.settledFlag || h.isBusted || h.isBlackjack

def Hand.doubleBet (h : Hand) : Hand := { h with bet := 2 * h.bet }

/-! ### Evaluator.js -/

inductive Outcome
  | WIN | BLACKJACK | LOSE | PUSH | DEALER_BUST
  deriving DecidableEq, Repr

/-- Evaluator.js compareHands: first-match decision order. -/
def compareHands (playerHand dealerHand : Hand) : Outcome × ℚ :=
  if playerHand.isBusted then (.LOSE, -1)
  else if playerHand.isBlackjack then
    if dealerHand.isBlackjack then (.PUSH, 0) else (.BLACKJACK, 3 / 2)
  else if dealerHand.isBusted then (.DEALER_BUST, 1)
  else if dealerHand.total < playerHand.total then (.WIN, 1)
  else if playerHand.total < dealerHand.total then (.LOSE, -1)
  else (.PUSH, 0)

structure RoundResult where
  hand : Hand
  outcome : Outcome
  payout : ℚ
  net : ℚ
  deriving DecidableEq, Repr

/-- Evaluator.js settleRound. -/
def settleRound (playerHands : List Hand) (dealerHand : Hand) : List RoundResult :=
  playerHands.map fun h =>
    let r := compareHands h dealerHand
    ⟨h, r.1, r.2, h.bet * r.2⟩

/-! ### Deck.js: the shoe -/

/-- Injectable random source: an infinite stream of naturals together with
the position of the next value to consume. -/
structure Rng where
  vals : Nat → Nat
  pos : Nat

def Rng.next (r : Rng) : Nat × Rng :=
  (r.vals r.pos, { r with pos := r.pos + 1 })

/-- One swap of the Fisher-Yates loop body. -/
def listSwap (l : List Card) (i j : Nat) : List Card :=
  match l.get? i, l.get? j with
  | some a, some b => (l.set i b).set j a
  | _, _ => l

/-- The loop of fisherYatesShuffle, running indices i, i-1, ..., 1.
At index i the fresh random value is reduced modulo i+1, matching
floor(random() * (i + 1)). -/
def fyAux : Nat → List Card → Rng → List Card × Rng
  | 0, l, r => (l, r)
  | i + 1, l, r =>
      let v := r.next
      let j := v.1 % (i + 2)
      fyAux i (listSwap l (i + 1) j) v.2

/-- Deck.js fisherYatesShuffle. -/
def fisherYatesShuffle (l : List Card) (r : Rng) : List Card × Rng :=
  fyAux (l.length - 1) l r

/-- Deck.js buildSingleDeck: ranks outermost, suits innermost. -/
def buildSingleDeck : List Card :=
  (RANKS.map fun rk => SUITS.map fun s => Card.mk rk s).flatten

structure Shoe where
  cards : List Card
  totalCards : Nat
  discardPile : List Card
  deriving DecidableEq, Repr

/-- Configuration of the shoe (closure variables of createDeck). -/
structure DeckCfg where
  numDecks : Nat
  penetration : ℚ

/-- Deck.js reset: rebuild numDecks copies, clear discard, record the size,
shuffle. -/
def resetS (cfg : DeckCfg) (r : Rng) : Shoe × Rng :=
  let cs := (List.replicate cfg.numDecks buildSingleDeck).flatten
  let sh := fisherYatesShuffle cs r
  (⟨sh.1, cs.length, []⟩, sh.2)

/-- Deck.js burn: splice count cards off the front into the discard pile. -/
def Shoe.burn (s : Shoe) (count : Nat) : Shoe × List Card :=
  let burned := s.cards.take count
  ({ s with cards := s.cards.drop count,
            discardPile := s.discardPile ++ burned }, burned)

/-- Deck.js needsReshuffle: live count has fallen to or below
Math.floor(totalCards * (1 - penetration)).  With penetration = n/d in
lowest terms (d > 0), the exact rational totalCards * (1 - n/d) equals
totalCards * (d - n) / d, whose floor is the integer floor division
below. -/
def needsReshuffle (cfg : DeckCfg) (s : Shoe) : Bool :=
  decide ((s.cards.length : ℤ) ≤
    Int.fdiv ((s.totalCards : ℤ) *
        ((cfg.penetration.den : ℤ) - cfg.penetration.num))
      (cfg.penetration.den : ℤ))

/-- Deck.js reshuffle: merge the discard pile back, record the size,
shuffle. -/
def reshuffleS (s : Shoe) (r : Rng) : Shoe × Rng :=
  let cs := s.cards ++ s.discardPile
  let sh := fisherYatesShuffle cs r
  (⟨sh.1, cs.length, []⟩, sh.2)

/-- Deck.js draw: reshuffle first when the threshold is reached, then
remove up to count cards off the front, returning only what is available. -/
def Shoe.draw (cfg : DeckCfg) (s : Shoe) (count : Nat) (r : Rng) :
    Shoe × List Card × Rng :=
  let p := if needsReshuffle cfg s then reshuffleS s r else (s, r)
  let k := min count p.1.cards.length
  ({ p.1 with cards := p.1.cards.drop k }, p.1.cards.take k, p.2)

/-- Deck.js discard: append cards to the discard pile. -/
def Shoe.discardS (s : Shoe) (cs : List Card) : Shoe :=
  { s with discardPile := s.discardPile ++ cs }

/-! ### Dealer.js -/

/-- Game configuration (options of createDealer / createGame). -/
structure GameCfg where
  numDecks : Nat
  penetration : ℚ
  dealerHitsSoft17 : Bool

def GameCfg.deck (cfg : GameCfg) : DeckCfg := ⟨cfg.numDecks, cfg.penetration⟩

/-- One dealing pass over the player hands: each hand receives the result
of one draw of one card. -/
def dealPass (cfg : DeckCfg) :
    List Hand → Shoe → Rng → List Hand × Shoe × Rng
  | [], s, r => ([], s, r)
  | h :: rest, s, r =>
      let d := Shoe.draw cfg s 1 r
      let t := dealPass cfg rest d.1 d.2.2
      (h.addCards d.2.1 :: t.1, t.2.1, t.2.2)

/-- Dealer.js dealInitial: burn one card, create the seated hands (bet
bets[i] || 0) and the dealer hand, then two round-robin passes of one card
to each player hand followed by one card to the dealer hand. -/
def dealInitial (cfg : GameCfg) (numPlayers : Nat) (bets : List ℚ)
    (s : Shoe) (r : Rng) : (List Hand × Hand) × Shoe × Rng :=
  let b := s.burn 1
  let hands0 := (List.range numPlayers).map fun i =>
    createHand false (match bets[i]? with
      | some q => if q = 0 then 0 else q
      | none => 0)
  let dealer0 := createHand true 0
  let p1 := dealPass cfg.deck hands0 b.1 r
  let d1 := Shoe.draw cfg.deck p1.2.1 1 p1.2.2
  let dealer1 := dealer0.addCards d1.2.1
  let p2 := dealPass cfg.deck p1.1 d1.1 d1.2.2
  let d2 := Shoe.draw cfg.deck p2.2.1 1 p2.2.2
  let dealer2 := dealer1.addCards d2.2.1
  ((p2.1, dealer2), d2.1, d2.2.2)

/-- Dealer.js hit: draw one card; if the shoe yields none, the hand is
left unchanged. -/
def hitD (cfg : GameCfg) (s : Shoe) (h : Hand) (r : Rng) :
    Shoe × Hand × Rng × Option Card :=
  let d := Shoe.draw cfg.deck s 1 r
  match d.2.1 with
  | [] => (d.1, h, d.2.2, none)
  | c :: _ => (d.1, h.addCards [c], d.2.2, some c)

/-- Dealer.js shouldDealerHit: hit below 17, and on soft 17 exactly when
dealerHitsSoft17 is configured. -/
def shouldDealerHit (cfg : GameCfg) (h : Hand) : Bool :=
  let v := evaluate h.cards
  if v.total < 17 then true
  else if v.total == 17 && v.soft && cfg.dealerHitsSoft17 then true
  else false

/-- Dealer.js playDealerHand, with explicit fuel for the while loop.
none means the loop still wanted to hit when the fuel ran out; the
JavaScript loop would simply keep running.  On exit the hand is settled
and its final total is returned. -/
def playDealerHandF (cfg : GameCfg) :
    Nat → Shoe → Hand → Rng → Option (Shoe × Hand × Rng × Nat)
  | 0, s, h, r =>
      if shouldDealerHit cfg h then none else some (s, h.settle, r, h.total)
  | fuel + 1, s, h, r =>
      if shouldDealerHit cfg h then
        let d := hitD cfg s h r
        playDealerHandF cfg fuel d.1 d.2.1 d.2.2.1
      else some (s, h.settle, r, h.total)

/-! ### GameState.js -/

inductive State
  | BETTING | DEALING | PLAYER_TURN | DEALER_TURN | SETTLEMENT | GAME_OVER
  deriving DecidableEq, Repr

structure Game where
  cfg : GameCfg
  shoe : Shoe
  rng : Rng
  state : State
  playerHands : List Hand
  dealerHand : Option Hand
  activeHandIdx : Nat
  results : List RoundResult
  /-- The sequence of stateChange events emitted so far (projection of the
  event surface onto state transitions). -/
  stateLog : List State

/-- Result of one action invocation.  err models a JavaScript throw (the
caller keeps the unchanged engine state); hang models the dealer while
loop failing to finish within the given fuel. -/
inductive StepOut
  | ok (g : Game)
  | err (msg : String)
  | hang

def StepOut.isErr : StepOut → Bool
  | .err _ => true
  | _ => false

/-- GameState.js createGame: fresh shoe, state BETTING, no hands. -/
def createGame (cfg : GameCfg) (r : Rng) : Game :=
  let s := resetS cfg.deck r
  ⟨cfg, s.1, s.2, .BETTING, [], none, 0, [], []⟩

def getActiveHand (g : Game) : Option Hand :=
  g.playerHands.get? g.activeHandIdx

def Game.pushState (g : Game) (st : State) : Game :=
  { g with state := st, stateLog := g.stateLog ++ [st] }

/-- GameState.js settle: compute results, return every card of every hand
to the discard pile, finish in GAME_OVER.  The dealer hand passed here is
the one the caller just stored. -/
def settleGD (g : Game) (d : Hand) : Game :=
  let res := settleRound g.playerHands d
  let allCards := (g.playerHands.map Hand.cards).flatten ++ d.cards
  ({ g with results := res,
            shoe := g.shoe.discardS allCards,
            dealerHand := some d }).pushState .GAME_OVER

/-- The while loop of skipSettledHands, with structural fuel: starting
from fuel = hands.length - i, the fuel never runs out before the loop
condition fails. -/
def skipIdxAux (hands : List Hand) : Nat → Nat → Nat
  | 0, i => i
  | fuel + 1, i =>
      if h : i < hands.length then
        if (hands.get ⟨i, h⟩).isSettled then skipIdxAux hands fuel (i + 1)
        else i
      else i

/-- The while loop of skipSettledHands: first index at or after i whose
hand is not settled, or the length of the list. -/
def skipIdx (hands : List Hand) (i : Nat) : Nat :=
  skipIdxAux hands (hands.length - i) i

/-- GameState.js beginDealerTurn: skip dealer play when every player hand
busted, otherwise run the dealer policy, then settle. -/
def beginDealerTurn (fuel : Nat) (g : Game) : StepOut :=
  match g.dealerHand with
  | none => .err "dealer hand missing"
  | some d =>
    let allBusted := g.playerHands.all Hand.isBusted
    let g1 := g.pushState .DEALER_TURN
    if !allBusted then
      match playDealerHandF g.cfg fuel g1.shoe d g1.rng with
      | none => .hang
      | some out =>
          let g2 := { g1 with shoe := out.1, rng := out.2.2.1,
                              dealerHand := some out.2.1 }
          .ok (settleGD (g2.pushState .SETTLEMENT) out.2.1)
    else
      let d1 := d.settle
      let g2 := { g1 with dealerHand := some d1 }
      .ok (settleGD (g2.pushState .SETTLEMENT) d1)

/-- GameState.js skipSettledHands. -/
def skipSettledHands (fuel : Nat) (g : Game) : StepOut :=
  let i := skipIdx g.playerHands g.activeHandIdx
  let g1 := { g with activeHandIdx := i }
  if g1.playerHands.length ≤ i then beginDealerTurn fuel g1
  else .ok g1

/-- GameState.js advanceHand. -/
def advanceHand (fuel : Nat) (g : Game) : StepOut :=
  skipSettledHands fuel { g with activeHandIdx := g.activeHandIdx + 1 }

/-- GameState.js placeBets. -/
def placeBets (fuel : Nat) (bets : List ℚ) (g : Game) : StepOut :=
  if g.state != .BETTING then .err "Cannot bet in this state"
  else if bets.isEmpty then .err "At least one bet required"
  else
    let g1 := g.pushState .DEALING
    let dealt := dealInitial g.cfg bets.length bets g1.shoe g1.rng
    let hands := dealt.1.1
    let dealer := dealt.1.2
    let g2 := { g1 with shoe := dealt.2.1, rng := dealt.2.2,
                        playerHands := hands, dealerHand := some dealer,
                        activeHandIdx := 0, results := [] }
    if dealer.isBlackjack then
      .ok (settleGD (g2.pushState .SETTLEMENT) dealer)
    else if hands.all Hand.isBlackjack then
      .ok (settleGD (g2.pushState .SETTLEMENT) dealer)
    else
      skipSettledHands fuel (g2.pushState .PLAYER_TURN)

/-- GameState.js playerHit. -/
def playerHit (fuel : Nat) (g : Game) : StepOut :=
  if g.state != .PLAYER_TURN then .err "Cannot hit in this state"
  else
    match getActiveHand g with
    | none => .err "no active hand"
    | some hand =>
      let d := hitD g.cfg g.shoe hand g.rng
      let h1 := d.2.1
      let g1 := { g with shoe := d.1, rng := d.2.2.1,
                         playerHands := g.playerHands.set g.activeHandIdx h1 }
      if h1.isBusted then
        let g2 := { g1 with
          playerHands := g1.playerHands.set g.activeHandIdx h1.settle }
        advanceHand fuel g2
      else .ok g1

/-- GameState.js playerStand. -/
def playerStand (fuel : Nat) (g : Game) : StepOut :=
  if g.state != .PLAYER_TURN then .err "Cannot stand in this state"
  else
    match getActiveHand g with
    | none => .err "no active hand"
    | some hand =>
      advanceHand fuel
        { g with playerHands := g.playerHands.set g.activeHandIdx hand.settle }

/-- GameState.js playerDoubleDown. -/
def playerDoubleDown (fuel : Nat) (g : Game) : StepOut :=
  if g.state != .PLAYER_TURN then .err "Cannot double in this state"
  else
    match getActiveHand g with
    | none => .err "no active hand"
    | some hand =>
      if !hand.canDoubleDown then .err "Double down not allowed"
      else
        let d := hitD g.cfg g.shoe hand.doubleBet g.rng
        let h2 := d.2.1.settle
        advanceHand fuel
          { g with shoe := d.1, rng := d.2.2.1,
                   playerHands := g.playerHands.set g.activeHandIdx h2 }

/-- GameState.js playerSplit. -/
def playerSplit (fuel : Nat) (g : Game) : StepOut :=
  if g.state != .PLAYER_TURN then .err "Cannot split in this state"
  else
    match getActiveHand g with
    | none => .err "no active hand"
    | some hand =>
      if !hand.canSplit then .err "Split not allowed"
      else
        match hand.split with
        | none => .err "Hand cannot be split"
        | some pair =>
          let dA := hitD g.cfg g.shoe pair.1 g.rng
          let dB := hitD g.cfg dA.1 pair.2 dA.2.2.1
          let g1 := { g with shoe := dB.1, rng := dB.2.2.1,
                             playerHands :=
                               g.playerHands.take g.activeHandIdx
                                 ++ [dA.2.1, dB.2.1]
                                 ++ g.playerHands.drop (g.activeHandIdx + 1) }
          skipSettledHands fuel g1

/-- GameState.js newRound. -/
def newRound (g : Game) : StepOut :=
  .ok (({ g with playerHands := [], dealerHand := none, activeHandIdx := 0,
                 results := [] }).pushState .BETTING)

/-- The action API consumed by a caller. -/
inductive Act
  | placeBets (bets : List ℚ)
  | hit
  | stand
  | double
  | splitHand
  | newRound
  deriving DecidableEq, Repr

def stepA (fuel : Nat) (a : Act) (g : Game) : StepOut :=
  match a with
  | .placeBets bets => placeBets fuel bets g
  | .hit => playerHit fuel g
  | .stand => playerStand fuel g
  | .double => playerDoubleDown fuel g
  | .splitHand => playerSplit fuel g
  | .newRound => newRound g

/-- Drive one action; on a throw (or a stuck dealer loop) the caller keeps
the previous engine state. -/
def exec (fuel : Nat) (a : Act) (g : Game) : Game :=
  match stepA fuel a g with
  | .ok g1 => g1
  | _ => g

def runTrace (fuel : Nat) (acts : List Act) (g : Game) : Game :=
  acts.foldl (fun gg a => exec fuel a gg) g

/-! ### Card conservation bookkeeping -/

/-- Number of cards currently referenced by the hands of the round. -/
def heldCards (g : Game) : Nat :=
  (g.playerHands.map fun h => h.cards.length).sum +
    (match g.dealerHand with
     | none => 0
     | some d => d.cards.length)

/-- Cards held by in-play hands: once the round has settled the hands are
out of play (their cards have been returned to the discard pile). -/
def inPlayCards (g : Game) : Nat :=
  if g.state = State.GAME_OVER then 0 else heldCards g

/-- A quiescent point between rounds. -/
def quiescentb (g : Game) : Bool :=
  g.state == State.BETTING || g.state == State.GAME_OVER

/-- A trace of complete rounds: newRound is only ever invoked at a
quiescent point. -/
def traceOKb (fuel : Nat) : Game → List Act → Bool
  | _, [] => true
  | g, a :: rest =>
      (match a with
       | Act.newRound => quiescentb g
       | _ => true) && traceOKb fuel (exec fuel a g) rest

/-! ### Theorems: hand evaluation (C1) -/

/-- Closed form for the number of times the reduction loop fires on a raw
total t when unlimited Aces are available: least r with t - 10r ≤ 21. -/
def aceReductions (t : Nat) : Nat :=
  if 21 < t then (t - 12) / 10 else 0

theorem aceReductions_of_gt (t : Nat) (h : 21 < t) :
    aceReductions t = aceReductions (t - 10) + 1 := by
  simp only [aceReductions]
  rcases Nat.lt_or_ge 21 (t - 10) with h2 | h2
  · rw [if_pos h, if_pos h2]
    omega
  · rw [if_pos h, if_neg (by omega)]
    omega

theorem reduceAces_eq (a t : Nat) :
    reduceAces t a =
      (t - 10 * min (aceReductions t) a, a - min (aceReductions t) a) := by
  induction a generalizing t with
  | zero => simp [reduceAces]
  | succ a ih =>
    rw [reduceAces]
    by_cases h : 21 < t
    · rw [if_pos h, ih, aceReductions_of_gt t h]
      simp only [Prod.mk.injEq]
      constructor <;> omega
    · rw [if_neg h]
      have h0 : aceReductions t = 0 := by simp [aceReductions, h]
      simp [h0]

/-- C1.  The hand value evaluation returns total = sum of base card values
(Ace = 11) reduced by 10 once per Ace while the running total exceeds 21
and an un-reduced Ace remains (i.e. reduced min(aceReductions, number of
Aces) times), and soft = true iff at least one Ace is still counted as 11
(i.e. fewer reductions happened than there are Aces); and the three worked
examples A,A,9 -> (21, soft), A,A,A -> (13, soft), 10,6,A -> (17, hard). -/
theorem c1_hand_value_evaluation :
    (∀ cards : List Card,
      evaluate cards =
        ⟨(cards.map Card.value).sum
            - 10 * min (aceReductions ((cards.map Card.value).sum))
                ((cards.filter isAce).length),
          decide (min (aceReductions ((cards.map Card.value).sum))
              ((cards.filter isAce).length) < (cards.filter isAce).length)⟩) ∧
    evaluate [⟨.ace, .hearts⟩, ⟨.ace, .diamonds⟩, ⟨.r9, .hearts⟩]
      = ⟨21, true⟩ ∧
    evaluate [⟨.ace, .hearts⟩, ⟨.ace, .diamonds⟩, ⟨.ace, .clubs⟩]
      = ⟨13, true⟩ ∧
    evaluate [⟨.r10, .hearts⟩, ⟨.r6, .hearts⟩, ⟨.ace, .spades⟩]
      = ⟨17, false⟩ := by
  refine ⟨fun cards => ?_, by decide, by decide, by decide⟩
  simp only [evaluate, reduceAces_eq]
  refine congrArg (HandVal.mk _) ?_
  exact decide_eq_decide.mpr (by omega)

/-! ### Theorems: evaluator decision order (C2) -/

/-- C2.  compareHands follows exactly the first-match decision order:
player bust -> LOSE -1; player blackjack -> PUSH 0 against a dealer
blackjack, else BLACKJACK 1.5; dealer bust -> DEALER_BUST 1; then totals:
greater -> WIN 1, smaller -> LOSE -1, equal -> PUSH 0. -/
theorem c2_compare_hands_decision_order (p d : Hand) :
    (p.isBusted = true → compareHands p d = (.LOSE, -1)) ∧
    (p.isBusted = false → p.isBlackjack = true → d.isBlackjack = true →
      compareHands p d = (.PUSH, 0)) ∧
    (p.isBusted = false → p.isBlackjack = true → d.isBlackjack = false →
      compareHands p d = (.BLACKJACK, 3 / 2)) ∧
    (p.isBusted = false → p.isBlackjack = false → d.isBusted = true →
      compareHands p d = (.DEALER_BUST, 1)) ∧
    (p.isBusted = false → p.isBlackjack = false → d.isBusted = false →
      d.total < p.total → compareHands p d = (.WIN, 1)) ∧
    (p.isBusted = false → p.isBlackjack = false → d.isBusted = false →
      p.total < d.total → compareHands p d = (.LOSE, -1)) ∧
    (p.isBusted = false → p.isBlackjack = false → d.isBusted = false →
      p.total = d.total → compareHands p d = (.PUSH, 0)) := by
  refine ⟨?_, ?_, ?_, ?_, ?_, ?_, ?_⟩ <;> intros <;>
    simp_all [compareHands] <;> omega

/-- Witness for C2 at concrete inputs: a busted player 10,9,5 loses, and a
player 19 beats a dealer 18. -/
theorem c2_compare_hands_witness :
    (Hand.mk [⟨.r10, .hearts⟩, ⟨.r9, .hearts⟩, ⟨.r5, .hearts⟩] 1 false
        false).isBusted = true ∧
    compareHands
        (Hand.mk [⟨.r10, .hearts⟩, ⟨.r9, .hearts⟩, ⟨.r5, .hearts⟩] 1 false
          false)
        (Hand.mk [⟨.r10, .diamonds⟩, ⟨.r8, .hearts⟩] 1 true false)
      = (.LOSE, -1) ∧
    compareHands
        (Hand.mk [⟨.r10, .clubs⟩, ⟨.r9, .clubs⟩] 1 false false)
        (Hand.mk [⟨.r10, .diamonds⟩, ⟨.r8, .hearts⟩] 1 true false)
      = (.WIN, 1) := by
  refine ⟨by decide, ?_, ?_⟩
  · exact (c2_compare_hands_decision_order _ _).1 (by decide)
  · exact (c2_compare_hands_decision_order _ _).2.2.2.2.1 (by decide)
      (by decide) (by decide) (by decide)

/-! ### Shuffle length preservation -/

theorem listSwap_length (l : List Card) (i j : Nat) :
    (listSwap l i j).length = l.length := by
  unfold listSwap
  cases l.get? i <;> cases l.get? j <;> simp

theorem fyAux_length (n : Nat) :
    ∀ (l : List Card) (r : Rng), (fyAux n l r).1.length = l.length := by
  induction n with
  | zero => intro l r; rfl
  | succ n ih => intro l r; rw [fyAux, ih, listSwap_length]

theorem fisherYatesShuffle_length (l : List Card) (r : Rng) :
    (fisherYatesShuffle l r).1.length = l.length :=
  fyAux_length _ l r

theorem reshuffleS_spec (s : Shoe) (r : Rng) :
    (reshuffleS s r).1.cards.length =
        s.cards.length + s.discardPile.length ∧
      (reshuffleS s r).1.discardPile = [] := by
  constructor
  · simp [reshuffleS, fisherYatesShuffle_length]
  · rfl

/-! ### Theorems: shoe exhaustion is a soft degrade (C8) -/

/-- C8.  draw never errors: it reshuffles first exactly when the threshold
is reached (leaving the discard pile empty) and then returns
min(requested, available) cards; and hit on a shoe that yields zero cards
leaves the hand unchanged. -/
theorem c8_shoe_soft_degrade (cfg : DeckCfg) (s : Shoe) (n : Nat) (r : Rng) :
    ((Shoe.draw cfg s n r).2.1.length =
      if needsReshuffle cfg s then
        min n (s.cards.length + s.discardPile.length)
      else min n s.cards.length) ∧
    (needsReshuffle cfg s = true →
      (Shoe.draw cfg s n r).1.discardPile = []) ∧
    (∀ (gcfg : GameCfg) (h : Hand) (r2 : Rng),
      (Shoe.draw gcfg.deck s 1 r2).2.1 = [] → (hitD gcfg s h r2).2.1 = h) := by
  refine ⟨?_, ?_, ?_⟩
  · by_cases hre : needsReshuffle cfg s
    · rw [if_pos hre]
      simp only [Shoe.draw, hre, if_true]
      rw [List.length_take, (reshuffleS_spec s r).1]
      omega
    · rw [if_neg hre]
      simp only [Shoe.draw, hre, Bool.false_eq_true, if_false]
      rw [List.length_take]
      omega
  · intro hre
    simp only [Shoe.draw, hre, if_true]
    exact (reshuffleS_spec s r).2
  · intro gcfg h r2 hnil
    simp [hitD, hnil]

/-- Witness for C8 on a concrete empty shoe: the reshuffle branch is taken,
zero cards come back, and hit leaves the hand unchanged. -/
theorem c8_shoe_soft_degrade_witness :
    ((Shoe.draw ⟨1, mkRat 3 4⟩ ⟨[], 0, []⟩ 1 ⟨fun _ => 0, 0⟩).2.1.length =
      if needsReshuffle ⟨1, mkRat 3 4⟩ ⟨[], 0, []⟩ then min 1 (0 + 0)
      else min 1 0) ∧
    (hitD ⟨1, mkRat 3 4, false⟩ ⟨[], 0, []⟩ (createHand true 0)
        ⟨fun _ => 0, 0⟩).2.1 = createHand true 0 := by
  constructor
  · exact (c8_shoe_soft_degrade ⟨1, mkRat 3 4⟩ ⟨[], 0, []⟩ 1 ⟨fun _ => 0, 0⟩).1
  · exact (c8_shoe_soft_degrade ⟨1, mkRat 3 4⟩ ⟨[], 0, []⟩ 1
      ⟨fun _ => 0, 0⟩).2.2 ⟨1, mkRat 3 4, false⟩ (createHand true 0)
      ⟨fun _ => 0, 0⟩ (by decide)

/-! ### Theorems: dealer policy (C5) -/

/-- C5.  The dealer hits exactly below 17, hits soft 17 only under the
dealerHitsSoft17 rule, and otherwise stands; the soft-17 hand A,6 stands
under S17 and hits under H17; and whenever the play loop finishes, the
final hand no longer satisfies the hit policy, is marked settled, and its
final total is returned. -/
theorem c5_dealer_policy :
    (∀ (cfg : GameCfg) (h : Hand),
      shouldDealerHit cfg h = true ↔
        (h.total < 17 ∨
          (h.total = 17 ∧ h.isSoft = true ∧ cfg.dealerHitsSoft17 = true))) ∧
    shouldDealerHit ⟨1, mkRat 3 4, false⟩
      (Hand.mk [⟨.ace, .hearts⟩, ⟨.r6, .hearts⟩] 0 true false) = false ∧
    shouldDealerHit ⟨1, mkRat 3 4, true⟩
      (Hand.mk [⟨.ace, .hearts⟩, ⟨.r6, .hearts⟩] 0 true false) = true ∧
    (∀ (cfg : GameCfg) (fuel : Nat) (s : Shoe) (h : Hand) (r : Rng)
        (out : Shoe × Hand × Rng × Nat),
      playDealerHandF cfg fuel s h r = some out →
        shouldDealerHit cfg out.2.1 = false ∧
        out.2.1.settledFlag = true ∧
        out.2.2.2 = out.2.1.total) := by
  refine ⟨?_, by decide, by decide, ?_⟩
  · intro cfg h
    simp only [shouldDealerHit, Hand.total, Hand.isSoft]
    rcases evaluate h.cards with ⟨t, soft⟩
    by_cases h17 : t < 17
    · simp [h17]
    · simp only [if_neg h17]
      cases soft <;> cases cfg.dealerHitsSoft17 <;> simp <;> omega
  · intro cfg fuel
    induction fuel with
    | zero =>
      intro s h r out hout
      rw [playDealerHandF] at hout
      by_cases hs : shouldDealerHit cfg h
      · simp [hs] at hout
      · simp only [hs, Bool.false_eq_true, if_false, Option.some.injEq] at hout
        subst hout
        simp only [Bool.not_eq_true] at hs
        exact ⟨hs, rfl, rfl⟩
    | succ fuel ih =>
      intro s h r out hout
      rw [playDealerHandF] at hout
      by_cases hs : shouldDealerHit cfg h
      · rw [if_pos hs] at hout
        exact ih _ _ _ _ hout
      · simp only [hs, Bool.false_eq_true, if_false, Option.some.injEq] at hout
        subst hout
        simp only [Bool.not_eq_true] at hs
        exact ⟨hs, rfl, rfl⟩

/-- Witness for C5: a dealer 20 stands immediately; the loop returns the
settled hand together with its total. -/
theorem c5_dealer_policy_witness :
    shouldDealerHit ⟨1, mkRat 3 4, false⟩
        ((Hand.mk [⟨.r10, .hearts⟩, ⟨.r10, .diamonds⟩] 0 true false).settle)
      = false ∧
    ((Hand.mk [⟨.r10, .hearts⟩, ⟨.r10, .diamonds⟩] 0 true
      false).settle).settledFlag = true := by
  have h := (c5_dealer_policy).2.2.2 ⟨1, mkRat 3 4, false⟩ 0 ⟨[], 0, []⟩
    (Hand.mk [⟨.r10, .hearts⟩, ⟨.r10, .diamonds⟩] 0 true false)
    ⟨fun _ => 0, 0⟩ _ rfl
  exact ⟨h.1, h.2.1⟩

/-! ### Theorems: dealInitial tolerates short bet lists (C10) -/

theorem dealPass_length (cfg : DeckCfg) :
    ∀ (hands : List Hand) (s : Shoe) (r : Rng),
      (dealPass cfg hands s r).1.length = hands.length := by
  intro hands
  induction hands with
  | nil => intro s r; rfl
  | cons h rest ih =>
    intro s r
    simp [dealPass, ih]

theorem dealPass_get_bet (cfg : DeckCfg) :
    ∀ (hands : List Hand) (s : Shoe) (r : Rng) (i : Nat),
      ((dealPass cfg hands s r).1[i]?).map Hand.bet =
        (hands[i]?).map Hand.bet := by
  intro hands
  induction hands with
  | nil => intro s r i; rfl
  | cons h rest ih =>
    intro s r i
    cases i with
    | zero => simp [dealPass, Hand.addCards]
    | succ i =>
      simp only [dealPass, List.getElem?_cons_succ]
      exact ih _ _ i

/-- C10.  dealInitial is total for any bets list: player hand i is seeded
with bets[i] when present and truthy and with 0 otherwise (equivalently,
getD i 0 for numeric bets), and the dealer hand always carries wager 0. -/
theorem c10_deal_initial (cfg : GameCfg) (numPlayers : Nat) (bets : List ℚ)
    (s : Shoe) (r : Rng) :
    (dealInitial cfg numPlayers bets s r).1.1.length = numPlayers ∧
    (∀ i, i < numPlayers →
      (((dealInitial cfg numPlayers bets s r).1.1[i]?).map Hand.bet) =
        some (bets.getD i 0)) ∧
    (dealInitial cfg numPlayers bets s r).1.2.bet = 0 ∧
    (dealInitial cfg numPlayers bets s r).1.2.isDealerHand = true := by
  refine ⟨?_, ?_, rfl, rfl⟩
  · simp [dealInitial, dealPass_length]
  · intro i hi
    simp only [dealInitial, dealPass_get_bet]
    rw [List.getElem?_map, List.getElem?_range hi]
    simp only [Option.map_some', createHand]
    rw [List.getD_eq_getElem?_getD]
    cases hq : bets[i]? with
    | none => simp
    | some q =>
      by_cases h0 : q = 0 <;> simp [h0]

/-- Witness for C10: two players against a one-element bets list; the
second hand gets wager 0 and the dealer wager is 0. -/
theorem c10_deal_initial_witness :
    (1 : Nat) < 2 ∧
    (((dealInitial ⟨1, mkRat 3 4, false⟩ 2 [5] ⟨[], 0, []⟩
        ⟨fun _ => 0, 0⟩).1.1[1]?).map Hand.bet) =
      some ([(5 : ℚ)].getD 1 0) := by
  exact ⟨by omega,
    (c10_deal_initial ⟨1, mkRat 3 4, false⟩ 2 [5] ⟨[], 0, []⟩
      ⟨fun _ => 0, 0⟩).2.1 1 (by omega)⟩

/-! ### Theorems: invalid transitions and operations (C7) -/

theorem exec_eq_of_isErr (fuel : Nat) (a : Act) (g : Game)
    (h : (stepA fuel a g).isErr = true) : exec fuel a g = g := by
  unfold exec
  cases hs : stepA fuel a g <;> simp_all [StepOut.isErr]

/-- C7.  Any action outside its valid state, or with a failed
precondition (double-down without exactly two cards, split without an
equal-rank pair, betting with no wagers), fails with an error and leaves
the engine state unchanged; it never silently no-ops. -/
theorem c7_invalid_operations (fuel : Nat) (g : Game) (bets : List ℚ) :
    (g.state ≠ State.PLAYER_TURN →
      (stepA fuel Act.hit g).isErr = true ∧
      (stepA fuel Act.stand g).isErr = true ∧
      (stepA fuel Act.double g).isErr = true ∧
      (stepA fuel Act.splitHand g).isErr = true ∧
      exec fuel Act.hit g = g) ∧
    (g.state ≠ State.BETTING →
      (stepA fuel (Act.placeBets bets) g).isErr = true ∧
      exec fuel (Act.placeBets bets) g = g) ∧
    (stepA fuel (Act.placeBets []) g).isErr = true ∧
    (∀ h : Hand, g.state = State.PLAYER_TURN → getActiveHand g = some h →
      h.cards.length ≠ 2 →
      (stepA fuel Act.double g).isErr = true ∧ exec fuel Act.double g = g) ∧
    (∀ h : Hand, g.state = State.PLAYER_TURN → getActiveHand g = some h →
      h.canSplit = false →
      (stepA fuel Act.splitHand g).isErr = true ∧
      exec fuel Act.splitHand g = g) := by
  refine ⟨?_, ?_, ?_, ?_, ?_⟩
  · intro hne
    have hb : (g.state != State.PLAYER_TURN) = true := bne_iff_ne.mpr hne
    refine ⟨?_, ?_, ?_, ?_, ?_⟩ <;>
      first
        | (apply exec_eq_of_isErr
           simp [stepA, playerHit, hb, StepOut.isErr])
        | simp [stepA, playerHit, playerStand, playerDoubleDown, playerSplit,
            hb, StepOut.isErr]
  · intro hne
    have hb : (g.state != State.BETTING) = true := bne_iff_ne.mpr hne
    constructor
    · simp [stepA, placeBets, hb, StepOut.isErr]
    · apply exec_eq_of_isErr
      simp [stepA, placeBets, hb, StepOut.isErr]
  · by_cases hst : g.state = State.BETTING
    · have hb : (g.state != State.BETTING) = false := by simp [hst]
      simp [stepA, placeBets, hb, StepOut.isErr]
    · have hb : (g.state != State.BETTING) = true := bne_iff_ne.mpr hst
      simp [stepA, placeBets, hb, StepOut.isErr]
  · intro h hst hact hlen
    have hb : (g.state != State.PLAYER_TURN) = false := by simp [hst]
    have hcd : h.canDoubleDown = false := by
      simp [Hand.canDoubleDown, hlen]
    constructor
    · simp [stepA, playerDoubleDown, hb, hact, hcd, StepOut.isErr]
    · apply exec_eq_of_isErr
      simp [stepA, playerDoubleDown, hb, hact, hcd, StepOut.isErr]
  · intro h hst hact hcs
    have hb : (g.state != State.PLAYER_TURN) = false := by simp [hst]
    constructor
    · simp [stepA, playerSplit, hb, hact, hcs, StepOut.isErr]
    · apply exec_eq_of_isErr
      simp [stepA, playerSplit, hb, hact, hcs, StepOut.isErr]

/-- A demo configuration and an all-zeros random source, used to produce
concrete reachable games for witnesses. -/
def demoCfg : GameCfg := ⟨1, mkRat 3 4, false⟩

def demoRng : Rng := ⟨fun _ => 0, 0⟩

def demoGame0 : Game := createGame demoCfg demoRng

/-- A reachable PLAYER_TURN position whose active hand has three cards:
place bets for two seats, then hit once. -/
def demoGamePT : Game := exec 10 Act.hit (exec 10 (Act.placeBets [1, 1]) demoGame0)

/-- Witness for C7: hitting and betting while in BETTING, betting with no
wagers, and double/split on a three-card active hand all error out. -/
theorem c7_invalid_operations_witness :
    (stepA 10 Act.hit demoGame0).isErr = true ∧
    (stepA 10 (Act.placeBets []) demoGame0).isErr = true ∧
    (stepA 10 Act.double demoGamePT).isErr = true ∧
    (stepA 10 Act.splitHand demoGamePT).isErr = true := by
  have h0 := c7_invalid_operations 10 demoGame0 []
  have h1 := c7_invalid_operations 10 demoGamePT []
  refine ⟨(h0.1 (by decide)).1, h0.2.2.1, ?_, ?_⟩
  · exact (h1.2.2.2.1 ((getActiveHand demoGamePT).getD (createHand false 0))
      (by decide) (by decide) (by decide)).1
  · exact (h1.2.2.2.2 ((getActiveHand demoGamePT).getD (createHand false 0))
      (by decide) (by decide) (by decide)).1

/-! ### Theorems: split (C6) -/

theorem hitD_of_pos (cfg : GameCfg) (s : Shoe) (h : Hand) (r : Rng)
    (hpos : 1 ≤ s.cards.length) :
    ∃ c s2 r2, hitD cfg s h r = (s2, h.addCards [c], r2, some c) ∧
      s.cards.length - 1 ≤ s2.cards.length := by
  unfold hitD Shoe.draw
  by_cases hn : needsReshuffle cfg.deck s
  · simp only [hn, if_true]
    have h1 := (reshuffleS_spec s r).1
    cases hc : (reshuffleS s r).1.cards with
    | nil => rw [hc] at h1; simp at h1; omega
    | cons c cs =>
      refine ⟨c, { (reshuffleS s r).1 with cards := cs },
        (reshuffleS s r).2, by simp [hc], ?_⟩
      rw [hc] at h1
      simp at h1 ⊢
      omega
  · simp only [hn, Bool.false_eq_true, if_false]
    cases hc : s.cards with
    | nil => rw [hc] at hpos; simp at hpos
    | cons c cs =>
      refine ⟨c, { s with cards := cs }, r, by simp [hc], ?_⟩
      simp [hc]

theorem settleGD_frame (g : Game) (d : Hand) :
    (settleGD g d).playerHands = g.playerHands ∧
    (settleGD g d).activeHandIdx = g.activeHandIdx ∧
    (settleGD g d).state = State.GAME_OVER := by
  refine ⟨rfl, rfl, rfl⟩

theorem beginDealerTurn_ok (fuel : Nat) (g g' : Game)
    (h : beginDealerTurn fuel g = .ok g') :
    g'.playerHands = g.playerHands ∧
    g'.activeHandIdx = g.activeHandIdx ∧
    g'.state = State.GAME_OVER := by
  unfold beginDealerTurn at h
  cases hd : g.dealerHand with
  | none => rw [hd] at h; exact absurd h (by simp)
  | some d =>
    rw [hd] at h
    by_cases hb : g.playerHands.all Hand.isBusted
    · simp only [hb, Bool.not_true, Bool.false_eq_true, if_false] at h
      rcases h with ⟨rfl⟩ | _
      · exact settleGD_frame _ _
    · simp only [hb, Bool.not_false, if_true] at h
      cases hp : playDealerHandF g.cfg fuel (g.pushState State.DEALER_TURN).shoe
          d (g.pushState State.DEALER_TURN).rng with
      | none => rw [hp] at h; exact absurd h (by simp)
      | some out =>
        rw [hp] at h
        rcases h with ⟨rfl⟩ | _
        exact settleGD_frame _ _

theorem skipSettledHands_ok (fuel : Nat) (g g' : Game)
    (h : skipSettledHands fuel g = .ok g') :
    g'.playerHands = g.playerHands ∧
    g'.activeHandIdx = skipIdx g.playerHands g.activeHandIdx := by
  unfold skipSettledHands at h
  by_cases hlt : g.playerHands.length ≤ skipIdx g.playerHands g.activeHandIdx
  · rw [if_pos hlt] at h
    have := beginDealerTurn_ok fuel _ _ h
    exact ⟨this.1, this.2.1⟩
  · rw [if_neg hlt] at h
    rcases h with ⟨rfl⟩ | _
    exact ⟨rfl, rfl⟩

/-- C6.  playerSplit errors outside PLAYER_TURN and whenever the active
hand is not a 2-card equal-rank pair; when it is (and the shoe holds at
least two cards) a success replaces the active hand in place with two new
hands, each inheriting the original bet, seeded with one of the two
original cards, dealt one extra card, and not automatically settled
(settled flag false); the active hand is then re-evaluated by the
skip-settled scan. -/
theorem c6_player_split (fuel : Nat) (g : Game) :
    (g.state ≠ State.PLAYER_TURN → (stepA fuel Act.splitHand g).isErr = true) ∧
    (∀ h : Hand, g.state = State.PLAYER_TURN → getActiveHand g = some h →
      h.canSplit = false → (stepA fuel Act.splitHand g).isErr = true) ∧
    (∀ (h : Hand) (c0 c1 : Card),
      g.state = State.PLAYER_TURN → getActiveHand g = some h →
      h.cards = [c0, c1] → c0.rank = c1.rank →
      2 ≤ g.shoe.cards.length →
      ∀ g', stepA fuel Act.splitHand g = .ok g' →
        ∃ x y : Card,
          g'.playerHands =
            g.playerHands.take g.activeHandIdx
              ++ [⟨[c0, x], h.bet, false, false⟩, ⟨[c1, y], h.bet, false, false⟩]
              ++ g.playerHands.drop (g.activeHandIdx + 1) ∧
          g'.activeHandIdx = skipIdx g'.playerHands g.activeHandIdx) := by
  refine ⟨?_, ?_, ?_⟩
  · intro hne
    have hb : (g.state != State.PLAYER_TURN) = true := bne_iff_ne.mpr hne
    simp [stepA, playerSplit, hb, StepOut.isErr]
  · intro h hst hact hcs
    have hb : (g.state != State.PLAYER_TURN) = false := by simp [hst]
    simp [stepA, playerSplit, hb, hact, hcs, StepOut.isErr]
  · intro h c0 c1 hst hact hcards hrank hlive g' hok
    have hb : (g.state != State.PLAYER_TURN) = false := by simp [hst]
    have hcs : h.canSplit = true := by
      simp [Hand.canSplit, hcards, hrank]
    have hsplit : h.split =
        some (⟨[c0], h.bet, false, false⟩, ⟨[c1], h.bet, false, false⟩) := by
      simp [Hand.split, hcs, hcards]
    simp only [stepA, playerSplit, hb, Bool.false_eq_true, if_false,
      hact, hcs, Bool.not_true, hsplit] at hok
    obtain ⟨x, sA, rA, hhitA, hlenA⟩ :=
      hitD_of_pos g.cfg g.shoe ⟨[c0], h.bet, false, false⟩ g.rng (by omega)
    rw [hhitA] at hok
    obtain ⟨y, sB, rB, hhitB, _⟩ :=
      hitD_of_pos g.cfg sA ⟨[c1], h.bet, false, false⟩ rA (by omega)
    rw [hhitB] at hok
    have hadds :
        (Hand.addCards ⟨[c0], h.bet, false, false⟩ [x]) =
          (⟨[c0, x], h.bet, false, false⟩ : Hand) ∧
        (Hand.addCards ⟨[c1], h.bet, false, false⟩ [y]) =
          (⟨[c1, y], h.bet, false, false⟩ : Hand) := by
      constructor <;> rfl
    rw [hadds.1, hadds.2] at hok
    have hframe := skipSettledHands_ok fuel _ _ hok
    refine ⟨x, y, ?_, ?_⟩
    · rw [hframe.1]
    · rw [hframe.2, hframe.1]

/-- A (constructed) PLAYER_TURN position whose single active hand is a
pair of eights, used to witness C6. -/
def gSplitW : Game :=
  ⟨demoCfg,
   ⟨[⟨.r5, .hearts⟩, ⟨.r9, .hearts⟩, ⟨.r2, .hearts⟩], 52, []⟩,
   demoRng, .PLAYER_TURN,
   [⟨[⟨.r8, .hearts⟩, ⟨.r8, .diamonds⟩], 1, false, false⟩],
   some ⟨[⟨.r10, .hearts⟩, ⟨.r7, .hearts⟩], 0, true, false⟩,
   0, [], []⟩

/-- Witness for C6: splitting the pair of eights succeeds and produces the
two seeded, bet-inheriting, unsettled hands. -/
theorem c6_player_split_witness :
    gSplitW.state = State.PLAYER_TURN ∧
    getActiveHand gSplitW =
      some ⟨[⟨.r8, .hearts⟩, ⟨.r8, .diamonds⟩], 1, false, false⟩ ∧
    2 ≤ gSplitW.shoe.cards.length ∧
    ∃ x y : Card,
      (exec 10 Act.splitHand gSplitW).playerHands =
        gSplitW.playerHands.take 0
          ++ [⟨[⟨.r8, .hearts⟩, x], 1, false, false⟩,
              ⟨[⟨.r8, .diamonds⟩, y], 1, false, false⟩]
          ++ gSplitW.playerHands.drop 1 ∧
      (exec 10 Act.splitHand gSplitW).activeHandIdx =
        skipIdx (exec 10 Act.splitHand gSplitW).playerHands 0 := by
  refine ⟨rfl, rfl, by decide, ?_⟩
  exact (c6_player_split 10 gSplitW).2.2
    ⟨[⟨.r8, .hearts⟩, ⟨.r8, .diamonds⟩], 1, false, false⟩
    ⟨.r8, .hearts⟩ ⟨.r8, .diamonds⟩ rfl rfl rfl rfl (by decide)
    (exec 10 Act.splitHand gSplitW) (by rfl)

/-! ### Facts about freshly dealt hands -/

theorem Card.value_le (c : Card) : c.value ≤ 11 := by
  cases hc : c.rank <;> simp [Card.value, Rank.value, hc]

theorem Card.value_eq_eleven (c : Card) (h : c.value = 11) :
    c.rank = Rank.ace := by
  cases hc : c.rank <;> simp_all [Card.value, Rank.value, hc]

theorem draw_len_le (cfg : DeckCfg) (s : Shoe) (n : Nat) (r : Rng) :
    (Shoe.draw cfg s n r).2.1.length ≤ n := by
  simp only [Shoe.draw, List.length_take]
  omega

theorem dealPass_mem (cfg : DeckCfg) :
    ∀ (hands : List Hand) (s : Shoe) (r : Rng) (h' : Hand),
      h' ∈ (dealPass cfg hands s r).1 →
      ∃ h ∈ hands, ∃ cs : List Card, cs.length ≤ 1 ∧ h' = h.addCards cs := by
  intro hands
  induction hands with
  | nil => intro s r h' hmem; simp [dealPass] at hmem
  | cons h rest ih =>
    intro s r h' hmem
    simp only [dealPass, List.mem_cons] at hmem
    rcases hmem with hmem | hmem
    · exact ⟨h, by simp, (Shoe.draw cfg s 1 r).2.1,
        draw_len_le cfg s 1 r, hmem⟩
    · obtain ⟨h0, hh0, cs, hcs, heq⟩ := ih _ _ h' hmem
      exact ⟨h0, by simp [hh0], cs, hcs, heq⟩

theorem dealInitial_hands_shape (cfg : GameCfg) (n : Nat) (bets : List ℚ)
    (s : Shoe) (r : Rng) :
    ∀ h' ∈ (dealInitial cfg n bets s r).1.1,
      h'.cards.length ≤ 2 ∧ h'.settledFlag = false := by
  intro h' hmem
  unfold dealInitial at hmem
  simp only at hmem
  obtain ⟨h1, hh1, cs2, hcs2, heq2⟩ := dealPass_mem _ _ _ _ _ hmem
  obtain ⟨h0, hh0, cs1, hcs1, heq1⟩ := dealPass_mem _ _ _ _ _ hh1
  simp only [List.mem_map] at hh0
  obtain ⟨i, _, hcreate⟩ := hh0
  subst heq2 heq1
  rw [← hcreate]
  refine ⟨?_, rfl⟩
  simp only [Hand.addCards, createHand, List.length_append, List.nil_append]
  omega

/-- A hand with at most two cards cannot be busted: the only raw sum above
21 is a pair of Aces (22), which reduces to 12. -/
theorem not_busted_of_le_two (h : Hand) (hlen : h.cards.length ≤ 2) :
    h.isBusted = false := by
  simp only [Hand.isBusted, Hand.total, evaluate, reduceAces_eq,
    decide_eq_false_iff_not, not_lt]
  rcases hc : h.cards with _ | ⟨c1, _ | ⟨c2, rest⟩⟩
  · simp [aceReductions]
  · have := Card.value_le c1
    have h0 : (([c1].map Card.value).sum) ≤ 11 := by simp; omega
    have : aceReductions (([c1].map Card.value).sum) = 0 := by
      simp only [aceReductions]
      rw [if_neg (by omega)]
    omega
  · have hrest : rest = [] := by
      rw [hc] at hlen; simpa using hlen
    subst hrest
    have hv1 := Card.value_le c1
    have hv2 := Card.value_le c2
    by_cases hS : ([c1, c2].map Card.value).sum ≤ 21
    · have : aceReductions (([c1, c2].map Card.value).sum) = 0 := by
        simp only [aceReductions]
        rw [if_neg (by omega)]
      omega
    · have hsum : ([c1, c2].map Card.value).sum = c1.value + c2.value := by
        simp
      have h22 : c1.value = 11 ∧ c2.value = 11 := by
        rw [hsum] at hS; constructor <;> omega
      have ha1 : isAce c1 = true := by
        simp [isAce, Card.value_eq_eleven c1 h22.1]
      have ha2 : isAce c2 = true := by
        simp [isAce, Card.value_eq_eleven c2 h22.2]
      have hfilter : ([c1, c2].filter isAce).length = 2 := by
        simp [List.filter, ha1, ha2]
      have hs22 : ([c1, c2].map Card.value).sum = 22 := by
        rw [hsum, h22.1, h22.2]
      rw [hs22, hfilter]
      simp [aceReductions]

theorem total_le_eleven_of_le_one (h : Hand) (hlen : h.cards.length ≤ 1) :
    h.total ≤ 11 := by
  simp only [Hand.total, evaluate, reduceAces_eq]
  rcases hc : h.cards with _ | ⟨c1, rest⟩
  · simp [aceReductions]
  · have hrest : rest = [] := by
      rw [hc] at hlen; simpa using hlen
    subst hrest
    have := Card.value_le c1
    have h0 : (([c1].map Card.value).sum) ≤ 11 := by simp; omega
    have : aceReductions (([c1].map Card.value).sum) = 0 := by
      simp only [aceReductions]; rw [if_neg (by omega)]
    omega

theorem blackjack_facts (h : Hand) (hbj : h.isBlackjack = true) :
    h.cards.length = 2 ∧ h.total = 21 ∧ h.isBusted = false := by
  simp only [Hand.isBlackjack, Bool.and_eq_true, beq_iff_eq] at hbj
  refine ⟨hbj.1, hbj.2, ?_⟩
  simp [Hand.isBusted, hbj.2]

/-- A non-blackjack hand of at most two cards totals strictly below 21. -/
theorem total_lt_of_not_bj (h : Hand) (hlen : h.cards.length ≤ 2)
    (hbj : h.isBlackjack = false) : h.total < 21 := by
  have hnb := not_busted_of_le_two h hlen
  simp only [Hand.isBusted, decide_eq_false_iff_not, not_lt] at hnb
  rcases Nat.lt_or_ge h.total 21 with hlt | hge
  · exact hlt
  · have h21 : h.total = 21 := by omega
    by_cases h2 : h.cards.length = 2
    · exfalso
      have : h.isBlackjack = true := by
        simp [Hand.isBlackjack, h2, h21]
      rw [this] at hbj; cases hbj
    · have : h.total ≤ 11 :=
        total_le_eleven_of_le_one h (by omega)
      omega

theorem compare_vs_dealer_bj (h d : Hand) (hd : d.isBlackjack = true)
    (hlen : h.cards.length ≤ 2) :
    (h.isBlackjack = true → compareHands h d = (.PUSH, 0)) ∧
    (h.isBlackjack = false → compareHands h d = (.LOSE, -1)) := by
  have hnb := not_busted_of_le_two h hlen
  constructor
  · intro hbj
    simp [compareHands, hnb, hbj, hd]
  · intro hbj
    have hdt : d.total = 21 := (blackjack_facts d hd).2.1
    have hdb : d.isBusted = false := (blackjack_facts d hd).2.2
    have hlt : h.total < 21 := total_lt_of_not_bj h hlen hbj
    have hngt : ¬ (d.total < h.total) := by omega
    have hltd : h.total < d.total := by omega
    simp [compareHands, hnb, hbj, hdb, hngt, hltd]

theorem compare_bj_vs_no_bj (h d : Hand) (hh : h.isBlackjack = true)
    (hd : d.isBlackjack = false) :
    compareHands h d = (.BLACKJACK, 3 / 2) := by
  have hnb := (blackjack_facts h hh).2.2
  simp [compareHands, hnb, hh, hd]

/-! ### The skip-settled scan stops at an unsettled hand -/

theorem skipIdxAux_lt (hands : List Hand) :
    ∀ (fuel i : Nat),
      (∃ j, ∃ hjlt : j < hands.length,
        i ≤ j ∧ (hands.get ⟨j, hjlt⟩).isSettled = false) →
      hands.length - i ≤ fuel →
      skipIdxAux hands fuel i < hands.length := by
  intro fuel
  induction fuel with
  | zero =>
    intro i hex hfuel
    obtain ⟨j, hjlt, hij, _⟩ := hex
    omega
  | succ fuel ih =>
    intro i hex hfuel
    obtain ⟨j, hjlt, hij, hset⟩ := hex
    rw [skipIdxAux]
    have hilt : i < hands.length := by omega
    rw [dif_pos hilt]
    by_cases hs : (hands.get ⟨i, hilt⟩).isSettled
    · rw [if_pos hs]
      have hne : i ≠ j := by
        intro heq
        subst heq
        have heqf : (⟨i, hjlt⟩ : Fin hands.length) = ⟨i, hilt⟩ := rfl
        rw [heqf, hs] at hset
        cases hset
      exact ih (i + 1) ⟨j, hjlt, by omega, hset⟩ (by omega)
    · rw [if_neg hs]
      exact hilt

theorem skipIdx_lt (hands : List Hand)
    (hex : ∃ j, ∃ hjlt : j < hands.length,
      (hands.get ⟨j, hjlt⟩).isSettled = false) :
    skipIdx hands 0 < hands.length := by
  obtain ⟨j, hjlt, hset⟩ := hex
  exact skipIdxAux_lt hands (hands.length - 0) 0
    ⟨j, hjlt, Nat.zero_le j, hset⟩ (le_refl _)

/-! ### Theorems: placeBets and naturals (C4, amended) -/

theorem hand_isSettled_false (h : Hand) (hflag : h.settledFlag = false)
    (hlen : h.cards.length ≤ 2) (hbj : h.isBlackjack = false) :
    h.isSettled = false := by
  simp [Hand.isSettled, hflag, hbj, not_busted_of_le_two h hlen]

/-- C4 (amended).  placeBets in BETTING with a non-empty bets list always
succeeds; with a dealer natural, or with every dealt player hand a
natural, PLAYER_TURN is never entered and the round settles directly into
GAME_OVER, where against a dealer natural every player natural PUSHes
(payout 0) and every other hand LOSEs (payout -1), while all-player
naturals against a non-natural dealer each earn BLACKJACK (payout 1.5);
otherwise the machine ends in PLAYER_TURN. -/
theorem c4_place_bets_naturals (fuel : Nat) (g : Game) (bets : List ℚ)
    (hst : g.state = State.BETTING) (hne : bets ≠ [])
    (hlog : State.PLAYER_TURN ∉ g.stateLog) :
    ∃ g' d, stepA fuel (Act.placeBets bets) g = .ok g' ∧
      g'.dealerHand = some d ∧
      (d.isBlackjack = true →
        g'.state = State.GAME_OVER ∧ State.PLAYER_TURN ∉ g'.stateLog ∧
        ∀ res ∈ g'.results,
          (res.hand.isBlackjack = true →
            res.outcome = Outcome.PUSH ∧ res.payout = 0) ∧
          (res.hand.isBlackjack = false →
            res.outcome = Outcome.LOSE ∧ res.payout = -1)) ∧
      (d.isBlackjack = false → g'.playerHands.all Hand.isBlackjack = true →
        g'.state = State.GAME_OVER ∧ State.PLAYER_TURN ∉ g'.stateLog ∧
        ∀ res ∈ g'.results,
          res.outcome = Outcome.BLACKJACK ∧ res.payout = 3 / 2) ∧
      (d.isBlackjack = false → g'.playerHands.all Hand.isBlackjack = false →
        g'.state = State.PLAYER_TURN) := by
  have hb : (g.state != State.BETTING) = false := by simp [hst]
  have hbe : bets.isEmpty = false := by
    cases bets with
    | nil => cases hne rfl
    | cons q qs => rfl
  have hshape := dealInitial_hands_shape g.cfg bets.length bets
    (g.pushState State.DEALING).shoe (g.pushState State.DEALING).rng
  set dealt := dealInitial g.cfg bets.length bets
    (g.pushState State.DEALING).shoe (g.pushState State.DEALING).rng
    with hdealt
  set hands := dealt.1.1 with hhands
  set d := dealt.1.2 with hdd
  set g2 : Game :=
    { g.pushState State.DEALING with
        shoe := dealt.2.1, rng := dealt.2.2,
        playerHands := hands, dealerHand := some d,
        activeHandIdx := 0, results := [] } with hg2
  have hstep : stepA fuel (Act.placeBets bets) g =
      (if d.isBlackjack then .ok (settleGD (g2.pushState .SETTLEMENT) d)
       else if hands.all Hand.isBlackjack then
         .ok (settleGD (g2.pushState .SETTLEMENT) d)
       else skipSettledHands fuel (g2.pushState .PLAYER_TURN)) := by
    simp only [stepA, placeBets, hb, Bool.false_eq_true, if_false, hbe]
  have hlogDeal : State.PLAYER_TURN ∉
      (((g2.pushState State.SETTLEMENT)).pushState State.GAME_OVER).stateLog := by
    simp [hg2, Game.pushState, List.mem_append, hlog]
  by_cases hd : d.isBlackjack = true
  · refine ⟨settleGD (g2.pushState .SETTLEMENT) d, d, ?_, rfl, ?_, ?_, ?_⟩
    · rw [hstep, if_pos hd]
    · intro _
      refine ⟨rfl, ?_, ?_⟩
      · exact hlogDeal
      · intro res hres
        simp only [settleGD, Game.pushState, settleRound, List.mem_map]
          at hres
        obtain ⟨h, hh, hres⟩ := hres
        have hlen := (hshape h hh).1
        have hcmp := compare_vs_dealer_bj h d hd hlen
        subst hres
        constructor
        · intro hbj
          have hbj2 : h.isBlackjack = true := hbj
          have hc := hcmp.1 hbj2
          exact ⟨by simp [hc], by simp [hc]⟩
        · intro hbj
          have hbj2 : h.isBlackjack = false := hbj
          have hc := hcmp.2 hbj2
          exact ⟨by simp [hc], by simp [hc]⟩
    · intro hd2
      rw [hd] at hd2; cases hd2
    · intro hd2
      rw [hd] at hd2; cases hd2
  · have hdf : d.isBlackjack = false := by
      cases hdb : d.isBlackjack
      · rfl
      · exact absurd hdb hd
    by_cases hall : hands.all Hand.isBlackjack = true
    · refine ⟨settleGD (g2.pushState .SETTLEMENT) d, d, ?_, rfl, ?_, ?_, ?_⟩
      · rw [hstep, if_neg (by simp [hdf]), if_pos hall]
      · intro hd2
        rw [hdf] at hd2; cases hd2
      · intro _ _
        refine ⟨rfl, hlogDeal, ?_⟩
        intro res hres
        simp only [settleGD, Game.pushState, settleRound, List.mem_map]
          at hres
        obtain ⟨h, hh, hres⟩ := hres
        have hbj : h.isBlackjack = true := List.all_eq_true.mp hall h hh
        subst hres
        have hc := compare_bj_vs_no_bj h d hbj hdf
        exact ⟨by simp [hc], by simp [hc]⟩
      · intro _ hall2
        have : (settleGD (g2.pushState State.SETTLEMENT) d).playerHands
            = hands := rfl
        rw [this] at hall2
        rw [hall] at hall2; cases hall2
    · have hallf : hands.all Hand.isBlackjack = false := by
        cases hab : hands.all Hand.isBlackjack
        · rfl
        · exact absurd hab hall
      have hex : ∃ x ∈ hands, ¬ (Hand.isBlackjack x = true) := by
        by_contra hcon
        push_neg at hcon
        exact hall (List.all_eq_true.mpr hcon)
      obtain ⟨x, hx, hxbj⟩ := hex
      have hxbj : x.isBlackjack = false := by
        cases hxb : x.isBlackjack
        · rfl
        · exact absurd hxb hxbj
      have hxset : x.isSettled = false :=
        hand_isSettled_false x (hshape x hx).2 (hshape x hx).1 hxbj
      obtain ⟨n, hget⟩ := List.mem_iff_get.mp hx
      have hlt : skipIdx hands 0 < hands.length := by
        refine skipIdx_lt hands ⟨n.1, n.2, ?_⟩
        rw [Fin.eta n n.2, hget]
        exact hxset
      have hskip : skipSettledHands fuel (g2.pushState .PLAYER_TURN) =
          .ok { g2.pushState .PLAYER_TURN with
                  activeHandIdx := skipIdx hands 0 } := by
        simp only [skipSettledHands]
        rw [if_neg (by simpa using Nat.not_le.mpr hlt)]
        rfl
      refine ⟨{ g2.pushState .PLAYER_TURN with
                  activeHandIdx := skipIdx hands 0 }, d, ?_, rfl, ?_, ?_, ?_⟩
      · rw [hstep, if_neg (by simp [hdf]), if_neg (by simp [hallf]), hskip]
      · intro hd2
        rw [hdf] at hd2; cases hd2
      · intro _ hall2
        have : ({ g2.pushState State.PLAYER_TURN with
            activeHandIdx := skipIdx hands 0 } : Game).playerHands
            = hands := rfl
        rw [this, hallf] at hall2; cases hall2
      · intro _ _
        rfl

/-! ### Concrete random sources for C4 -/

/-- Random values that shuffle one deck into burn 2H, player A-H K-H,
dealer 9H 9D, remainder arbitrary. -/
def c4vals : List Nat :=
  [51, 50, 49, 47, 46, 45, 44, 43, 42, 41, 40, 39, 38, 37, 36, 35, 34, 31,
   30, 29, 28, 27, 26, 25, 24, 23, 22, 21, 20, 19, 18, 17, 16, 15, 14, 13,
   12, 11, 10, 9, 8, 7, 6, 5, 3, 2, 1, 2, 3, 1, 0]

def c4rng : Rng := ⟨fun p => c4vals.getD p 0, 0⟩

def c4cfg : GameCfg := ⟨1, mkRat 3 4, false⟩

def c4game0 : Game := createGame c4cfg c4rng

def c4game : Game := exec 10 (Act.placeBets [1]) c4game0

/-- Counterexample to C4 as stated: betting one seat deals the player a
natural A,K while the dealer holds 9,9; every dealt player hand is a
natural, the machine skips PLAYER_TURN, but the natural is paid BLACKJACK
at 1.5 rather than the PUSH at 0 the claim asserts. -/
theorem c4_counterexample :
    c4game0.state = State.BETTING ∧
    (c4game.playerHands.all Hand.isBlackjack) = true ∧
    (c4game.dealerHand.map Hand.isBlackjack) = some false ∧
    c4game.state = State.GAME_OVER ∧
    c4game.results.map RoundResult.outcome = [Outcome.BLACKJACK] ∧
    c4game.results.map RoundResult.payout = [3 / 2] ∧
    Outcome.BLACKJACK ≠ Outcome.PUSH ∧ (3 / 2 : ℚ) ≠ 0 := by
  refine ⟨rfl, by decide, by decide, rfl, rfl, rfl, by decide, by norm_num⟩

/-- Witness for the amended C4 at the same concrete deal. -/
theorem c4_place_bets_naturals_witness :
    c4game0.state = State.BETTING ∧ (([1] : List ℚ) ≠ []) ∧
    State.PLAYER_TURN ∉ c4game0.stateLog ∧
    ∃ g' d, stepA 10 (Act.placeBets [1]) c4game0 = StepOut.ok g' ∧
      g'.dealerHand = some d ∧
      (d.isBlackjack = false → g'.playerHands.all Hand.isBlackjack = true →
        g'.state = State.GAME_OVER ∧ State.PLAYER_TURN ∉ g'.stateLog ∧
        ∀ res ∈ g'.results,
          res.outcome = Outcome.BLACKJACK ∧ res.payout = 3 / 2) := by
  refine ⟨rfl, by decide, by decide, ?_⟩
  obtain ⟨g', d, h1, h2, _, h4, _⟩ :=
    c4_place_bets_naturals 10 c4game0 [1] rfl (by decide) (by decide)
  exact ⟨g', d, h1, h2, h4⟩

/-! ### Theorems: the dealer loop can run forever (C9) -/

/-- One hit on a shoe whose live and discard piles are both empty yields
nothing and leaves live and discard empty. -/
theorem hit_empty (cfg : GameCfg) (s : Shoe) (h : Hand) (r : Rng)
    (hc : s.cards = []) (hd : s.discardPile = []) :
    ∃ s2, hitD cfg s h r = (s2, h, r, none) ∧
      s2.cards = [] ∧ s2.discardPile = [] := by
  unfold hitD Shoe.draw
  by_cases hn : needsReshuffle cfg.deck s
  · refine ⟨⟨[], 0, []⟩, ?_, rfl, rfl⟩
    simp [hn, reshuffleS, fisherYatesShuffle, hc, hd, fyAux]
  · refine ⟨{ s with cards := [] }, ?_, rfl, hd⟩
    simp [hn, hc]

/-- Once the shoe is fully exhausted and the dealer policy still wants a
card, the dealer play loop never finishes, whatever the fuel. -/
theorem playDealer_stuck (cfg : GameCfg) :
    ∀ (f : Nat) (s : Shoe) (h : Hand) (r : Rng),
      s.cards = [] → s.discardPile = [] → shouldDealerHit cfg h = true →
      playDealerHandF cfg f s h r = none := by
  intro f
  induction f with
  | zero =>
    intro s h r hc hd hs
    rw [playDealerHandF, if_pos hs]
  | succ f ih =>
    intro s h r hc hd hs
    rw [playDealerHandF, if_pos hs]
    obtain ⟨s2, heq, hc2, hd2⟩ := hit_empty cfg s h r hc hd
    simp only [heq]
    exact ih s2 h r hc2 hd2 hs

theorem beginDealerTurn_hang (fuel : Nat) (g : Game) (d : Hand)
    (hd : g.dealerHand = some d)
    (hb : g.playerHands.all Hand.isBusted = false)
    (hp : playDealerHandF g.cfg fuel g.shoe d g.rng = none) :
    beginDealerTurn fuel g = .hang := by
  unfold beginDealerTurn
  rw [hd, hb]
  simp only [Bool.not_false, if_true, Game.pushState]
  rw [hp]

/-- Random values that shuffle one deck into the engineered order for the
divergence trace: 13 seats, every card absorbed by player hands except the
dealer 2H 2D and the tail 2C 2S 3H, with the burned A-H reshuffled in at
the end. -/
def c9vals : List Nat :=
  [8, 7, 6, 11, 10, 3, 9, 15, 14, 19, 18, 23, 22, 27, 26, 31, 28, 8, 7,
   10, 15, 18, 23, 5, 2, 13, 17, 21, 17, 18, 5, 7, 6, 3, 14, 3, 13, 4, 1,
   12, 3, 7, 5, 4, 4, 4, 3, 3, 3, 2, 1]

def c9valsF : Nat → Nat := fun p => c9vals.getD p 0

def c9cfg : GameCfg := ⟨1, mkRat 103 104, false⟩

def c9rng : Rng := ⟨c9valsF, 0⟩

def c9bets : List ℚ := [1, 1, 1, 1, 1, 1, 1, 1, 1, 1, 1, 1, 1]

/-- The 23 actions leading to the brink: bet 13 seats, then hit/stand each
seat so that the players hold every card but 2H 2D 2C 2S 3H and the burned
A-H. -/
def c9preActs : List Act :=
  [Act.placeBets c9bets] ++ List.replicate 14 Act.hit ++ [Act.stand]
    ++ List.replicate 3 Act.hit ++ [Act.stand] ++ List.replicate 3 Act.hit

def c9gPre : Game := runTrace 100 c9preActs (createGame c9cfg c9rng)

def c9g2hands : List Hand :=
  [⟨[⟨.r10, .hearts⟩, ⟨.r10, .diamonds⟩, ⟨.jack, .hearts⟩], 1, false, true⟩,
   ⟨[⟨.r10, .clubs⟩, ⟨.r10, .spades⟩, ⟨.jack, .diamonds⟩], 1, false, true⟩,
   ⟨[⟨.jack, .clubs⟩, ⟨.jack, .spades⟩, ⟨.queen, .hearts⟩], 1, false, true⟩,
   ⟨[⟨.queen, .diamonds⟩, ⟨.queen, .clubs⟩, ⟨.queen, .spades⟩], 1, false, true⟩,
   ⟨[⟨.king, .hearts⟩, ⟨.king, .diamonds⟩, ⟨.king, .clubs⟩], 1, false, true⟩,
   ⟨[⟨.r9, .hearts⟩, ⟨.r9, .diamonds⟩, ⟨.king, .spades⟩], 1, false, true⟩,
   ⟨[⟨.r9, .clubs⟩, ⟨.r9, .spades⟩, ⟨.r8, .hearts⟩], 1, false, true⟩,
   ⟨[⟨.r8, .diamonds⟩, ⟨.r8, .clubs⟩, ⟨.r8, .spades⟩], 1, false, true⟩,
   ⟨[⟨.r7, .hearts⟩, ⟨.r7, .diamonds⟩, ⟨.r7, .clubs⟩, ⟨.r7, .spades⟩], 1,
     false, true⟩,
   ⟨[⟨.r6, .hearts⟩, ⟨.r6, .diamonds⟩, ⟨.r6, .clubs⟩, ⟨.r6, .spades⟩], 1,
     false, true⟩,
   ⟨[⟨.r5, .hearts⟩, ⟨.r5, .diamonds⟩, ⟨.r5, .clubs⟩, ⟨.r5, .spades⟩], 1,
     false, true⟩,
   ⟨[⟨.r4, .hearts⟩, ⟨.r4, .diamonds⟩, ⟨.r4, .clubs⟩, ⟨.r4, .spades⟩,
      ⟨.r3, .diamonds⟩], 1, false, true⟩,
   ⟨[⟨.ace, .diamonds⟩, ⟨.ace, .clubs⟩, ⟨.ace, .spades⟩, ⟨.r3, .clubs⟩,
      ⟨.r3, .spades⟩], 1, false, true⟩]

def c9dealer0 : Hand := ⟨[⟨.r2, .hearts⟩, ⟨.r2, .diamonds⟩], 0, true, false⟩

def c9dealerStuck : Hand :=
  ⟨[⟨.r2, .hearts⟩, ⟨.r2, .diamonds⟩, ⟨.r2, .clubs⟩, ⟨.r2, .spades⟩,
    ⟨.r3, .hearts⟩, ⟨.ace, .hearts⟩], 0, true, false⟩

def c9shoe3 : Shoe :=
  ⟨[⟨.r2, .clubs⟩, ⟨.r2, .spades⟩, ⟨.r3, .hearts⟩], 52, [⟨.ace, .hearts⟩]⟩

/-- The engine state the final stand hands to beginDealerTurn: hand 13
settled, active index past the end, three cards live plus the burned Ace
in discard, the dealer holding 2,2. -/
def c9g2 : Game :=
  ⟨c9cfg, c9shoe3, ⟨c9valsF, 51⟩, State.PLAYER_TURN, c9g2hands,
   some c9dealer0, 13, [], [State.DEALING, State.PLAYER_TURN]⟩

/-- On the engineered shoe, the dealer loop drains the last three live
cards, reshuffles in the burned Ace, reaches soft 12 with the shoe fully
empty, and then can never satisfy the stand condition: no fuel suffices. -/
theorem c9_play_none :
    ∀ f, playDealerHandF c9cfg f c9shoe3 c9dealer0 ⟨c9valsF, 51⟩ = none := by
  intro f
  match f with
  | 0 => rfl
  | 1 => rfl
  | 2 => rfl
  | 3 => rfl
  | (f + 4) =>
    exact playDealer_stuck c9cfg f ⟨[], 1, []⟩ c9dealerStuck ⟨c9valsF, 51⟩
      rfl rfl rfl

/-- C9 is violated by the code: the trace c9preActs reaches PLAYER_TURN,
and the final stand never returns, because playDealerHand keeps asking an
exhausted shoe for a card while the dealer total stays below 17. -/
theorem c9_dealer_loop_divergence :
    c9gPre.state = State.PLAYER_TURN ∧
    ∀ fuel, stepA fuel Act.stand c9gPre = StepOut.hang := by
  constructor
  · rfl
  · intro fuel
    have h1 : stepA fuel Act.stand c9gPre = beginDealerTurn fuel c9g2 := rfl
    rw [h1]
    exact beginDealerTurn_hang fuel c9g2 c9dealer0 rfl (by decide)
      (c9_play_none fuel)

/-! ### Card conservation (C3): counting lemmas -/

/-- Total number of cards referenced by a list of hands. -/
def handsCards (hands : List Hand) : Nat :=
  (hands.map fun h => h.cards.length).sum

/-- The conserved quantity of the claim: live shoe + discard pile +
cards held by in-play hands. -/
def invCount (g : Game) : Nat :=
  g.shoe.cards.length + g.shoe.discardPile.length + inPlayCards g

/-- The inductive invariant: the count is full, and in BETTING no hands
are outstanding (newRound cleared them). -/
def roundInv (N : Nat) (g : Game) : Prop :=
  invCount g = N * 52 ∧
  (g.state = State.BETTING → g.playerHands = [] ∧ g.dealerHand = none)

theorem burn_conserve (s : Shoe) (n : Nat) :
    (s.burn n).1.cards.length + (s.burn n).1.discardPile.length =
      s.cards.length + s.discardPile.length := by
  simp only [Shoe.burn, List.length_drop, List.length_append,
    List.length_take]
  omega

theorem draw_conserve (cfg : DeckCfg) (s : Shoe) (n : Nat) (r : Rng) :
    (Shoe.draw cfg s n r).1.cards.length +
      (Shoe.draw cfg s n r).1.discardPile.length +
      (Shoe.draw cfg s n r).2.1.length =
    s.cards.length + s.discardPile.length := by
  unfold Shoe.draw
  by_cases hn : needsReshuffle cfg s
  · have h1 := (reshuffleS_spec s r).1
    have h2 := (reshuffleS_spec s r).2
    simp only [hn, if_true, List.length_drop, List.length_take, h2, h1,
      List.length_nil]
    omega
  · simp only [hn, Bool.false_eq_true, if_false, List.length_drop,
      List.length_take]
    omega

theorem hitD_conserve (cfg : GameCfg) (s : Shoe) (h : Hand) (r : Rng) :
    (hitD cfg s h r).1.cards.length +
      (hitD cfg s h r).1.discardPile.length +
      (hitD cfg s h r).2.1.cards.length =
    s.cards.length + s.discardPile.length + h.cards.length := by
  have hcons := draw_conserve cfg.deck s 1 r
  have hle := draw_len_le cfg.deck s 1 r
  unfold hitD
  cases hd : (Shoe.draw cfg.deck s 1 r).2.1 with
  | nil =>
    simp only [hd] at hcons hle ⊢
    simp only [List.length_nil] at hcons
    omega
  | cons c rest =>
    simp only [hd] at hcons hle ⊢
    simp only [List.length_cons] at hcons hle
    have hrest : rest.length = 0 := by omega
    simp only [Hand.addCards, List.length_append, List.length_cons,
      List.length_nil]
    omega

theorem dealPass_conserve (cfg : DeckCfg) :
    ∀ (hands : List Hand) (s : Shoe) (r : Rng),
      handsCards (dealPass cfg hands s r).1 +
        (dealPass cfg hands s r).2.1.cards.length +
        (dealPass cfg hands s r).2.1.discardPile.length =
      handsCards hands + s.cards.length + s.discardPile.length := by
  intro hands
  induction hands with
  | nil => intro s r; rfl
  | cons h rest ih =>
    intro s r
    have hdr := draw_conserve cfg s 1 r
    have hih := ih (Shoe.draw cfg s 1 r).1 (Shoe.draw cfg s 1 r).2.2
    simp only [dealPass, handsCards, List.map_cons, List.sum_cons,
      Hand.addCards, List.length_append] at *
    omega

theorem dealInitial_conserve (cfg : GameCfg) (n : Nat) (bets : List ℚ)
    (s : Shoe) (r : Rng) :
    handsCards (dealInitial cfg n bets s r).1.1 +
      (dealInitial cfg n bets s r).1.2.cards.length +
      (dealInitial cfg n bets s r).2.1.cards.length +
      (dealInitial cfg n bets s r).2.1.discardPile.length =
    s.cards.length + s.discardPile.length := by
  have hzero : handsCards ((List.range n).map fun i =>
      createHand false (match bets[i]? with
        | some q => if q = 0 then 0 else q
        | none => 0)) = 0 := by
    simp only [handsCards, List.map_map]
    apply List.sum_eq_zero
    intro x hx
    simp only [List.mem_map] at hx
    obtain ⟨i, _, rfl⟩ := hx
    rfl
  unfold dealInitial
  simp only
  have hburn := burn_conserve s 1
  have hp1 := dealPass_conserve cfg.deck
    ((List.range n).map fun i =>
      createHand false (match bets[i]? with
        | some q => if q = 0 then 0 else q
        | none => 0))
    (s.burn 1).1 r
  set s1 := (dealPass cfg.deck ((List.range n).map fun i =>
      createHand false (match bets[i]? with
        | some q => if q = 0 then 0 else q
        | none => 0)) (s.burn 1).1 r).2.1 with hs1
  set r1 := (dealPass cfg.deck ((List.range n).map fun i =>
      createHand false (match bets[i]? with
        | some q => if q = 0 then 0 else q
        | none => 0)) (s.burn 1).1 r).2.2 with hr1
  set hands1 := (dealPass cfg.deck ((List.range n).map fun i =>
      createHand false (match bets[i]? with
        | some q => if q = 0 then 0 else q
        | none => 0)) (s.burn 1).1 r).1 with hhands1
  have hd1 := draw_conserve cfg.deck s1 1 r1
  have hp2 := dealPass_conserve cfg.deck hands1
    (Shoe.draw cfg.deck s1 1 r1).1 (Shoe.draw cfg.deck s1 1 r1).2.2
  set s2 := (dealPass cfg.deck hands1 (Shoe.draw cfg.deck s1 1 r1).1
    (Shoe.draw cfg.deck s1 1 r1).2.2).2.1 with hs2
  set r2 := (dealPass cfg.deck hands1 (Shoe.draw cfg.deck s1 1 r1).1
    (Shoe.draw cfg.deck s1 1 r1).2.2).2.2 with hr2
  have hd2 := draw_conserve cfg.deck s2 1 r2
  simp only [Hand.addCards, createHand, List.length_append,
    List.nil_append, List.length_nil] at *
  omega

theorem playDealer_conserve (cfg : GameCfg) :
    ∀ (fuel : Nat) (s : Shoe) (h : Hand) (r : Rng)
      (out : Shoe × Hand × Rng × Nat),
      playDealerHandF cfg fuel s h r = some out →
      out.1.cards.length + out.1.discardPile.length +
        out.2.1.cards.length =
      s.cards.length + s.discardPile.length + h.cards.length := by
  intro fuel
  induction fuel with
  | zero =>
    intro s h r out hout
    rw [playDealerHandF] at hout
    by_cases hs : shouldDealerHit cfg h
    · simp [hs] at hout
    · simp only [hs, Bool.false_eq_true, if_false,
        Option.some.injEq] at hout
      subst hout
      rfl
  | succ fuel ih =>
    intro s h r out hout
    rw [playDealerHandF] at hout
    by_cases hs : shouldDealerHit cfg h
    · rw [if_pos hs] at hout
      have hh := ih _ _ _ _ hout
      have hc := hitD_conserve cfg s h r
      omega
    · simp only [hs, Bool.false_eq_true, if_false,
        Option.some.injEq] at hout
      subst hout
      rfl

theorem settleGD_count (g : Game) (d : Hand) :
    invCount (settleGD g d) =
      g.shoe.cards.length + g.shoe.discardPile.length +
        handsCards g.playerHands + d.cards.length := by
  simp only [invCount, inPlayCards, settleGD, Game.pushState,
    Shoe.discardS, handsCards]
  simp only [if_true, List.length_append]
  have hflat : ((g.playerHands.map Hand.cards).flatten).length =
      (g.playerHands.map fun h => h.cards.length).sum := by
    rw [List.length_flatten, List.map_map]
    rfl
  omega

theorem handsCards_set :
    ∀ (hands : List Hand) (i : Nat) (h h0 : Hand),
      hands.get? i = some h0 →
      handsCards (hands.set i h) + h0.cards.length =
        handsCards hands + h.cards.length := by
  intro hands
  induction hands with
  | nil => intro i h h0 hget; simp at hget
  | cons x rest ih =>
    intro i h h0 hget
    cases i with
    | zero =>
      simp only [List.get?_cons_zero, Option.some.injEq] at hget
      subst hget
      simp [handsCards, List.set]
      omega
    | succ i =>
      simp only [List.get?_cons_succ] at hget
      have := ih i h h0 hget
      simp only [handsCards, List.set, List.map_cons, List.sum_cons] at *
      omega

theorem invCount_notGO (g : Game) (d : Hand)
    (hst : g.state ≠ State.GAME_OVER) (hd : g.dealerHand = some d) :
    invCount g = g.shoe.cards.length + g.shoe.discardPile.length +
      (handsCards g.playerHands + d.cards.length) := by
  simp only [invCount, inPlayCards, if_neg hst, heldCards, handsCards, hd]

theorem beginDealerTurn_conserve (fuel : Nat) (g g' : Game)
    (hok : beginDealerTurn fuel g = .ok g')
    (hst : g.state ≠ State.GAME_OVER) :
    invCount g' = invCount g := by
  unfold beginDealerTurn at hok
  cases hdl : g.dealerHand with
  | none => rw [hdl] at hok; exact absurd hok (by simp)
  | some d =>
    rw [hdl] at hok
    have hheld := invCount_notGO g d hst hdl
    by_cases hb : g.playerHands.all Hand.isBusted
    · simp only [hb, Bool.not_true, Bool.false_eq_true, if_false] at hok
      rcases hok with ⟨rfl⟩ | _
      rw [settleGD_count]
      simp only [Game.pushState, Hand.settle]
      omega
    · simp only [hb, Bool.not_false, if_true] at hok
      cases hp : playDealerHandF g.cfg fuel (g.pushState State.DEALER_TURN).shoe
          d (g.pushState State.DEALER_TURN).rng with
      | none => rw [hp] at hok; exact absurd hok (by simp)
      | some out =>
        rw [hp] at hok
        rcases hok with ⟨rfl⟩ | _
        have hplay := playDealer_conserve g.cfg fuel _ d _ _ hp
        rw [settleGD_count]
        simp only [Game.pushState] at hplay ⊢
        omega

theorem skipSettledHands_conserve (fuel : Nat) (g g' : Game)
    (hok : skipSettledHands fuel g = .ok g')
    (hst : g.state ≠ State.GAME_OVER) :
    invCount g' = invCount g ∧
    (g'.state = g.state ∨ g'.state = State.GAME_OVER) := by
  unfold skipSettledHands at hok
  by_cases hlt : g.playerHands.length ≤ skipIdx g.playerHands g.activeHandIdx
  · rw [if_pos hlt] at hok
    have h1 := beginDealerTurn_conserve fuel _ _ hok hst
    have h2 := (beginDealerTurn_ok fuel _ _ hok).2.2
    exact ⟨h1, Or.inr h2⟩
  · rw [if_neg hlt] at hok
    rcases hok with ⟨rfl⟩ | _
    exact ⟨rfl, Or.inl rfl⟩

/-! ### Per-action preservation of the conservation invariant -/

/-- Cards held by the dealer hand, if any. -/
def dealerCards (g : Game) : Nat :=
  match g.dealerHand with
  | none => 0
  | some d => d.cards.length

theorem invCount_expand (g : Game) (hst : g.state ≠ State.GAME_OVER) :
    invCount g = g.shoe.cards.length + g.shoe.discardPile.length +
      (handsCards g.playerHands + dealerCards g) := by
  dsimp only [invCount, inPlayCards]
  rw [if_neg hst]
  rfl

theorem invCount_update (g : Game) (s : Shoe) (r : Rng)
    (hands : List Hand) (i : Nat) (hst : g.state ≠ State.GAME_OVER) :
    invCount { g with shoe := s, rng := r, playerHands := hands,
                      activeHandIdx := i } =
      s.cards.length + s.discardPile.length +
        (handsCards hands + dealerCards g) := by
  dsimp only [invCount, inPlayCards]
  rw [if_neg hst]
  rfl

theorem playerHit_roundInv (N fuel : Nat) (g g' : Game)
    (hok : stepA fuel Act.hit g = .ok g') (hInv : roundInv N g) :
    roundInv N g' := by
  by_cases hst : g.state = State.PLAYER_TURN
  case neg =>
    have hb : (g.state != State.PLAYER_TURN) = true := bne_iff_ne.mpr hst
    simp [stepA, playerHit, hb] at hok
  case pos =>
  have hb : (g.state != State.PLAYER_TURN) = false := by simp [hst]
  cases hact : getActiveHand g with
  | none => simp [stepA, playerHit, hb, hact] at hok
  | some hand =>
    unfold getActiveHand at hact
    simp only [stepA, playerHit, getActiveHand, hb, Bool.false_eq_true,
      if_false, hact] at hok
    have hhit := hitD_conserve g.cfg g.shoe hand g.rng
    set h1 := (hitD g.cfg g.shoe hand g.rng).2.1 with hh1
    have hGO : g.state ≠ State.GAME_OVER := by rw [hst]; decide
    have hcount := hInv.1
    by_cases hbust : h1.isBusted
    · rw [if_pos hbust] at hok
      unfold advanceHand at hok
      rw [List.set_set] at hok
      have hsk := skipSettledHands_conserve fuel _ _ hok hGO
      have hsets := handsCards_set g.playerHands g.activeHandIdx
        h1.settle hand hact
      simp only [Hand.settle] at hsets
      constructor
      · rw [hsk.1]
        simp only [invCount, inPlayCards, heldCards, handsCards, hst,
          Hand.settle, reduceCtorEq, if_false] at hcount hsets hhit ⊢
        omega
      · intro hBET
        have hs2 : g'.state = g.state ∨ g'.state = State.GAME_OVER := hsk.2
        rcases hs2 with hs | hs
        · rw [hBET, hst] at hs; cases hs
        · rw [hBET] at hs; cases hs
    · rw [if_neg hbust] at hok
      rcases hok with ⟨rfl⟩ | _
      have hsets := handsCards_set g.playerHands g.activeHandIdx h1 hand hact
      constructor
      · simp only [invCount, inPlayCards, heldCards, handsCards, hst,
          reduceCtorEq, if_false] at hcount hsets hhit ⊢
        omega
      · intro hBET
        have hBET2 : g.state = State.BETTING := hBET
        rw [hst] at hBET2; cases hBET2

theorem playerStand_roundInv (N fuel : Nat) (g g' : Game)
    (hok : stepA fuel Act.stand g = .ok g') (hInv : roundInv N g) :
    roundInv N g' := by
  by_cases hst : g.state = State.PLAYER_TURN
  case neg =>
    have hb : (g.state != State.PLAYER_TURN) = true := bne_iff_ne.mpr hst
    simp [stepA, playerStand, hb] at hok
  case pos =>
  have hb : (g.state != State.PLAYER_TURN) = false := by simp [hst]
  cases hact : getActiveHand g with
  | none => simp [stepA, playerStand, hb, hact] at hok
  | some hand =>
    unfold getActiveHand at hact
    simp only [stepA, playerStand, getActiveHand, hb, Bool.false_eq_true,
      if_false, hact] at hok
    have hGO : g.state ≠ State.GAME_OVER := by rw [hst]; decide
    have hcount := hInv.1
    unfold advanceHand at hok
    have hsk := skipSettledHands_conserve fuel _ _ hok hGO
    have hsets := handsCards_set g.playerHands g.activeHandIdx
      hand.settle hand hact
    simp only [Hand.settle] at hsets
    constructor
    · rw [hsk.1]
      simp only [invCount, inPlayCards, heldCards, handsCards, hst,
        Hand.settle, reduceCtorEq, if_false] at hcount hsets ⊢
      omega
    · intro hBET
      have hs2 : g'.state = g.state ∨ g'.state = State.GAME_OVER := hsk.2
      rcases hs2 with hs | hs
      · rw [hBET, hst] at hs; cases hs
      · rw [hBET] at hs; cases hs

theorem playerDoubleDown_roundInv (N fuel : Nat) (g g' : Game)
    (hok : stepA fuel Act.double g = .ok g') (hInv : roundInv N g) :
    roundInv N g' := by
  by_cases hst : g.state = State.PLAYER_TURN
  case neg =>
    have hb : (g.state != State.PLAYER_TURN) = true := bne_iff_ne.mpr hst
    simp [stepA, playerDoubleDown, hb] at hok
  case pos =>
  have hb : (g.state != State.PLAYER_TURN) = false := by simp [hst]
  cases hact : getActiveHand g with
  | none => simp [stepA, playerDoubleDown, hb, hact] at hok
  | some hand =>
    unfold getActiveHand at hact
    by_cases hcd : hand.canDoubleDown
    case neg =>
      have hact2 : g.playerHands[g.activeHandIdx]? = some hand := by
        rw [← List.get?_eq_getElem?]; exact hact
      have hcdf : hand.canDoubleDown = false := by
        simp only [Bool.not_eq_true] at hcd; exact hcd
      simp [stepA, playerDoubleDown, getActiveHand, hb, hact2, hcdf] at hok
    case pos =>
    simp only [stepA, playerDoubleDown, getActiveHand, hb,
      Bool.false_eq_true, if_false, hact, hcd, Bool.not_true] at hok
    have hGO : g.state ≠ State.GAME_OVER := by rw [hst]; decide
    have hcount := hInv.1
    have hhit := hitD_conserve g.cfg g.shoe hand.doubleBet g.rng
    set h2 := (hitD g.cfg g.shoe hand.doubleBet g.rng).2.1 with hh2
    unfold advanceHand at hok
    have hsk := skipSettledHands_conserve fuel _ _ hok hGO
    have hsets := handsCards_set g.playerHands g.activeHandIdx
      h2.settle hand hact
    simp only [Hand.settle, Hand.doubleBet] at hsets hhit
    constructor
    · rw [hsk.1]
      simp only [invCount, inPlayCards, heldCards, handsCards, hst,
        Hand.settle, Hand.doubleBet, reduceCtorEq, if_false]
        at hcount hsets hhit ⊢
      omega
    · intro hBET
      have hs2 : g'.state = g.state ∨ g'.state = State.GAME_OVER := hsk.2
      rcases hs2 with hs | hs
      · rw [hBET, hst] at hs; cases hs
      · rw [hBET] at hs; cases hs

theorem playerSplit_roundInv (N fuel : Nat) (g g' : Game)
    (hok : stepA fuel Act.splitHand g = .ok g') (hInv : roundInv N g) :
    roundInv N g' := by
  by_cases hst : g.state = State.PLAYER_TURN
  case neg =>
    have hb : (g.state != State.PLAYER_TURN) = true := bne_iff_ne.mpr hst
    simp [stepA, playerSplit, hb] at hok
  case pos =>
  have hb : (g.state != State.PLAYER_TURN) = false := by simp [hst]
  cases hact : getActiveHand g with
  | none => simp [stepA, playerSplit, hb, hact] at hok
  | some hand =>
    unfold getActiveHand at hact
    by_cases hcs : hand.canSplit
    case neg =>
      have hact2 : g.playerHands[g.activeHandIdx]? = some hand := by
        rw [← List.get?_eq_getElem?]; exact hact
      have hcsf : hand.canSplit = false := by
        simp only [Bool.not_eq_true] at hcs; exact hcs
      simp [stepA, playerSplit, getActiveHand, hb, hact2, hcsf] at hok
    case pos =>
    rcases hcards : hand.cards with _ | ⟨c0, _ | ⟨c1, rest⟩⟩ <;>
      (try (rw [Hand.canSplit, hcards] at hcs; cases hcs))
    have hrest : rest = [] := by
      rcases rest with _ | ⟨x, xs⟩
      · rfl
      · rw [Hand.canSplit, hcards] at hcs; cases hcs
    subst hrest
    have hsplit : hand.split =
        some (⟨[c0], hand.bet, false, false⟩,
              ⟨[c1], hand.bet, false, false⟩) := by
      simp [Hand.split, hcs, hcards]
    simp only [stepA, playerSplit, getActiveHand, hb, Bool.false_eq_true,
      if_false, hact, hcs, Bool.not_true, hsplit] at hok
    have hGO : g.state ≠ State.GAME_OVER := by rw [hst]; decide
    have hcount := hInv.1
    have hhitA := hitD_conserve g.cfg g.shoe
      ⟨[c0], hand.bet, false, false⟩ g.rng
    have hhitB := hitD_conserve g.cfg
      (hitD g.cfg g.shoe ⟨[c0], hand.bet, false, false⟩ g.rng).1
      ⟨[c1], hand.bet, false, false⟩
      (hitD g.cfg g.shoe ⟨[c0], hand.bet, false, false⟩ g.rng).2.2.1
    have hidx : g.activeHandIdx < g.playerHands.length := by
      rcases List.get?_eq_some.mp hact with ⟨hlt, _⟩
      exact hlt
    have hdecomp : g.playerHands.drop g.activeHandIdx =
        hand :: g.playerHands.drop (g.activeHandIdx + 1) := by
      rw [List.drop_eq_getElem_cons hidx]
      congr 1
      have := List.get?_eq_getElem? g.playerHands g.activeHandIdx
      rw [hact] at this
      exact (List.getElem?_eq_some_iff.mp this.symm).2
    have hslice : handsCards g.playerHands =
        handsCards (g.playerHands.take g.activeHandIdx) +
          hand.cards.length +
          handsCards (g.playerHands.drop (g.activeHandIdx + 1)) := by
      conv_lhs => rw [← List.take_append_drop g.activeHandIdx g.playerHands]
      rw [hdecomp]
      simp [handsCards]
      omega
    have hsk := skipSettledHands_conserve fuel _ _ hok hGO
    constructor
    · rw [hsk.1]
      simp only [invCount, inPlayCards, heldCards, handsCards, hst,
        reduceCtorEq, if_false, List.map_append, List.sum_append,
        List.map_cons, List.sum_cons, List.length_cons, List.length_nil,
        hcards, List.map_nil, List.sum_nil] at hcount hhitA hhitB hslice ⊢
      omega
    · intro hBET
      have hs2 : g'.state = g.state ∨ g'.state = State.GAME_OVER := hsk.2
      rcases hs2 with hs | hs
      · rw [hBET, hst] at hs; cases hs
      · rw [hBET] at hs; cases hs

theorem placeBets_roundInv (N fuel : Nat) (bets : List ℚ) (g g' : Game)
    (hok : stepA fuel (Act.placeBets bets) g = .ok g')
    (hInv : roundInv N g) : roundInv N g' := by
  by_cases hst : g.state = State.BETTING
  case neg =>
    have hb : (g.state != State.BETTING) = true := bne_iff_ne.mpr hst
    simp [stepA, placeBets, hb] at hok
  case pos =>
  have hb : (g.state != State.BETTING) = false := by simp [hst]
  by_cases hbe : bets.isEmpty
  · simp [stepA, placeBets, hb, hbe] at hok
  · have hbef : bets.isEmpty = false := by
      simp only [Bool.not_eq_true] at hbe; exact hbe
    have hempty := hInv.2 hst
    have hcount := hInv.1
    have hGO : g.state ≠ State.GAME_OVER := by rw [hst]; decide
    have hinplay : invCount g =
        g.shoe.cards.length + g.shoe.discardPile.length := by
      rw [invCount_expand g hGO]
      simp [handsCards, hempty.1, dealerCards, hempty.2]
    set dealt := dealInitial g.cfg bets.length bets
      (g.pushState State.DEALING).shoe (g.pushState State.DEALING).rng
      with hdealt
    have hcons := dealInitial_conserve g.cfg bets.length bets
      (g.pushState State.DEALING).shoe (g.pushState State.DEALING).rng
    rw [← hdealt] at hcons
    have hpush : (g.pushState State.DEALING).shoe = g.shoe := rfl
    rw [hpush] at hcons
    have hstep : stepA fuel (Act.placeBets bets) g =
        (if dealt.1.2.isBlackjack then
          .ok (settleGD
            (({ g.pushState State.DEALING with
                shoe := dealt.2.1, rng := dealt.2.2,
                playerHands := dealt.1.1, dealerHand := some dealt.1.2,
                activeHandIdx := 0,
                results := [] }).pushState .SETTLEMENT) dealt.1.2)
         else if dealt.1.1.all Hand.isBlackjack then
          .ok (settleGD
            (({ g.pushState State.DEALING with
                shoe := dealt.2.1, rng := dealt.2.2,
                playerHands := dealt.1.1, dealerHand := some dealt.1.2,
                activeHandIdx := 0,
                results := [] }).pushState .SETTLEMENT) dealt.1.2)
         else skipSettledHands fuel
            (({ g.pushState State.DEALING with
                shoe := dealt.2.1, rng := dealt.2.2,
                playerHands := dealt.1.1, dealerHand := some dealt.1.2,
                activeHandIdx := 0,
                results := [] }).pushState .PLAYER_TURN)) := by
      simp only [stepA, placeBets, hb, Bool.false_eq_true, if_false, hbef]
    rw [hstep] at hok
    by_cases hd : dealt.1.2.isBlackjack = true
    · rw [if_pos hd] at hok
      rcases hok with ⟨rfl⟩ | _
      constructor
      · rw [settleGD_count]
        simp only [Game.pushState]
        omega
      · intro hBET
        have hb2 : State.GAME_OVER = State.BETTING := hBET
        cases hb2
    · rw [if_neg hd] at hok
      by_cases hall : dealt.1.1.all Hand.isBlackjack = true
      · rw [if_pos hall] at hok
        rcases hok with ⟨rfl⟩ | _
        constructor
        · rw [settleGD_count]
          simp only [Game.pushState]
          omega
        · intro hBET
          have hb2 : State.GAME_OVER = State.BETTING := hBET
          cases hb2
      · rw [if_neg hall] at hok
        have hsk := skipSettledHands_conserve fuel _ _ hok (by
          intro hcon
          have : State.PLAYER_TURN = State.GAME_OVER := hcon
          cases this)
        constructor
        · rw [hsk.1]
          rw [invCount_expand _ (by
            intro hcon
            have : State.PLAYER_TURN = State.GAME_OVER := hcon
            cases this)]
          simp only [Game.pushState, dealerCards]
          omega
        · intro hBET
          have hs2 : g'.state = State.PLAYER_TURN ∨
              g'.state = State.GAME_OVER := hsk.2
          rcases hs2 with hs | hs <;> rw [hBET] at hs <;> cases hs

theorem newRound_roundInv (N fuel : Nat) (g g' : Game)
    (hok : stepA fuel Act.newRound g = .ok g')
    (hInv : roundInv N g) (hq : quiescentb g = true) : roundInv N g' := by
  simp only [stepA, newRound, StepOut.ok.injEq] at hok
  subst hok
  have hcount := hInv.1
  constructor
  · rw [invCount_expand _ (by
      intro hcon
      have : State.BETTING = State.GAME_OVER := hcon
      cases this)]
    simp only [Game.pushState, handsCards, dealerCards, List.map_nil,
      List.sum_nil]
    have hq2 : g.state = State.BETTING ∨ g.state = State.GAME_OVER := by
      simpa [quiescentb, Bool.or_eq_true, beq_iff_eq] using hq
    rcases hq2 with hs | hs
    · have hemp := hInv.2 hs
      rw [invCount_expand g (by rw [hs]; decide)] at hcount
      simp [handsCards, hemp.1, dealerCards, hemp.2] at hcount
      omega
    · have hzero : invCount g =
          g.shoe.cards.length + g.shoe.discardPile.length := by
        simp [invCount, inPlayCards, hs]
      rw [hzero] at hcount
      omega
  · intro _
    exact ⟨rfl, rfl⟩

theorem exec_roundInv (N fuel : Nat) (a : Act) (g : Game)
    (hInv : roundInv N g) (hq : a = Act.newRound → quiescentb g = true) :
    roundInv N (exec fuel a g) := by
  unfold exec
  cases hs : stepA fuel a g with
  | ok g1 =>
    cases a with
    | placeBets bets => exact placeBets_roundInv N fuel bets g g1 hs hInv
    | hit => exact playerHit_roundInv N fuel g g1 hs hInv
    | stand => exact playerStand_roundInv N fuel g g1 hs hInv
    | double => exact playerDoubleDown_roundInv N fuel g g1 hs hInv
    | splitHand => exact playerSplit_roundInv N fuel g g1 hs hInv
    | newRound => exact newRound_roundInv N fuel g g1 hs hInv (hq rfl)
  | err m => exact hInv
  | hang => exact hInv

theorem runTrace_roundInv (N fuel : Nat) :
    ∀ (acts : List Act) (g : Game), roundInv N g →
      traceOKb fuel g acts = true →
      roundInv N (runTrace fuel acts g) := by
  intro acts
  induction acts with
  | nil => intro g h _; exact h
  | cons a rest ih =>
    intro g h hok
    simp only [traceOKb, Bool.and_eq_true] at hok
    have hq : a = Act.newRound → quiescentb g = true := by
      intro ha
      subst ha
      exact hok.1
    exact ih (exec fuel a g) (exec_roundInv N fuel a g h hq) hok.2

theorem buildSingleDeck_length : buildSingleDeck.length = 52 := by decide

theorem resetS_spec (cfg : DeckCfg) (r : Rng) :
    (resetS cfg r).1.cards.length = cfg.numDecks * 52 ∧
    (resetS cfg r).1.discardPile = [] := by
  constructor
  · simp only [resetS, fisherYatesShuffle_length]
    rw [List.length_flatten, List.map_replicate, buildSingleDeck_length,
      List.sum_replicate, smul_eq_mul]
  · rfl

theorem createGame_roundInv (cfg : GameCfg) (r : Rng) :
    roundInv cfg.numDecks (createGame cfg r) := by
  have hres := resetS_spec cfg.deck r
  constructor
  · have hstate : (createGame cfg r).state = State.BETTING := rfl
    rw [invCount_expand _ (by rw [hstate]; decide)]
    have hsh : (createGame cfg r).shoe = (resetS cfg.deck r).1 := rfl
    have hph : handsCards (createGame cfg r).playerHands = 0 := rfl
    have hdc : dealerCards (createGame cfg r) = 0 := rfl
    rw [hsh, hph, hdc, hres.1, hres.2]
    rfl
  · intro _
    exact ⟨rfl, rfl⟩

theorem traceOKb_take (fuel : Nat) :
    ∀ (acts : List Act) (g : Game) (k : Nat),
      traceOKb fuel g acts = true → traceOKb fuel g (acts.take k) = true := by
  intro acts
  induction acts with
  | nil => intro g k h; rw [List.take_nil]; exact h
  | cons a rest ih =>
    intro g k h
    cases k with
    | zero => rfl
    | succ k =>
      simp only [List.take_succ_cons, traceOKb, Bool.and_eq_true] at h ⊢
      exact ⟨h.1, ih _ k h.2⟩

/-- C3.  For every configuration and every trace of complete rounds
(newRound fired only at quiescent points), at every quiescent point along
the trace the live shoe plus the discard pile plus the cards of in-play
hands add up to numDecks * 52. -/
theorem c3_card_conservation (fuel : Nat) (cfg : GameCfg) (r : Rng)
    (acts : List Act)
    (hdecks : 1 ≤ cfg.numDecks) (hp0 : 0 ≤ cfg.penetration)
    (hp1 : cfg.penetration < 1)
    (hok : traceOKb fuel (createGame cfg r) acts = true) :
    ∀ k, quiescentb (runTrace fuel (acts.take k) (createGame cfg r)) = true →
      (runTrace fuel (acts.take k) (createGame cfg r)).shoe.cards.length +
        (runTrace fuel (acts.take k) (createGame cfg r)).shoe.discardPile.length +
        inPlayCards (runTrace fuel (acts.take k) (createGame cfg r)) =
      cfg.numDecks * 52 := by
  intro k _
  exact (runTrace_roundInv cfg.numDecks fuel (acts.take k) _
    (createGame_roundInv cfg r) (traceOKb_take fuel acts _ k hok)).1

/-- A complete demo round: bet, stand, settle, reset. -/
def c3trace : List Act := [Act.placeBets [1], Act.stand, Act.newRound]

/-- Witness for C3: the demo round conserves all 52 cards at its final
quiescent point. -/
theorem c3_card_conservation_witness :
    1 ≤ demoCfg.numDecks ∧ 0 ≤ demoCfg.penetration ∧
    demoCfg.penetration < 1 ∧
    traceOKb 100 (createGame demoCfg demoRng) c3trace = true ∧
    quiescentb (runTrace 100 (c3trace.take 3)
      (createGame demoCfg demoRng)) = true ∧
    (runTrace 100 (c3trace.take 3) (createGame demoCfg demoRng)).shoe.cards.length +
      (runTrace 100 (c3trace.take 3)
        (createGame demoCfg demoRng)).shoe.discardPile.length +
      inPlayCards (runTrace 100 (c3trace.take 3)
        (createGame demoCfg demoRng)) =
    demoCfg.numDecks * 52 := by
  have hp0 : (0 : ℚ) ≤ demoCfg.penetration := by decide
  have hp1 : demoCfg.penetration < 1 := by decide
  refine ⟨by decide, hp0, hp1, by decide, by decide, ?_⟩
  exact c3_card_conservation 100 demoCfg demoRng c3trace (by decide) hp0 hp1
    (by decide) 3 (by decide)

end CardCounter
